import Mathlib

/-!
# Verification of the scraping pipeline core

Shallow embedding of the core of the repository (stage sequencer, document
extractor, snapshot store, dedup queue) with proofs of the specified
properties.  Sources embedded:

* `backend/utils/queue.js`      — `ScrapeQueue` (per-subject request dedup)
* `backend/utils/mongodb.js`    — snapshot store with TTL expiry
* `backend/scraper/scrape.js`   — stage sequencer (`scrape`, `captureStep`)
* `backend/scraper/parseSnapshots.js` — profile / processing extractors
* `frontend/src/utils/parseFullReport.js` — full-report avatar extraction
* `backend/server.js`           — `/api/stalkers` cache branch

Machine integers do not overflow in any embedded routine (times, lengths and
counters are unbounded in JS within the modelled ranges), so numbers are
modelled as `Nat`.  Asynchronous code is modelled by explicit state passing:
the event-loop interleavings relevant to the claims are captured as event
traces over explicit state machines.
-/

/-! ## Dedup queue (`backend/utils/queue.js`, class `ScrapeQueue`)

The queue keeps `processing : Map<username, Promise>`.  We model the map as
an association list from subject name to an execution identifier, promises
by execution identifiers, and promise settlement as an explicit event.
`started` records every underlying execution ever begun (in order),
`waiters` the callers currently awaiting an execution, and `delivered` the
(caller, outcome) pairs released by settlements. -/

/-- Settlement outcome of one underlying scrape execution: resolution with a
result value or rejection with an error value. -/
inductive Outcome where
  | success (v : Nat)
  | failure (e : Nat)
deriving DecidableEq, Repr

/-- State of the `ScrapeQueue` singleton plus bookkeeping of executions. -/
structure QueueState where
  /-- `this.processing`: subject → in-flight execution id (JS `Map`). -/
  processing : List (String × Nat)
  /-- Fresh execution identifier supply. -/
  nextExec : Nat
  /-- All executions ever started, oldest first: (execId, subject). -/
  started : List (Nat × String)
  /-- Callers currently awaiting an execution: (callerId, execId). -/
  waiters : List (Nat × Nat)
  /-- Outcomes handed to callers by settlements: (callerId, outcome). -/
  delivered : List (Nat × Outcome)
deriving DecidableEq, Repr

/-- `Map.get` on an association list (first entry with the key wins; the
reachable states keep keys unique, matching the JS `Map`). -/
def lookupKey (u : String) : List (String × Nat) → Option Nat
  | [] => none
  | p :: l => if p.1 = u then some p.2 else lookupKey u l

/-- `Map.delete` on an association list: drop the first entry with the key. -/
def eraseKey (u : String) : List (String × Nat) → List (String × Nat)
  | [] => []
  | p :: l => if p.1 = u then l else p :: eraseKey u l

/-- `ScrapeQueue.enqueue(username, scrapeFunction)`: if the subject is in
flight the caller just awaits the existing promise (recorded as a waiter on
the same execution id); otherwise a fresh execution starts, is registered in
`processing`, and the caller awaits it.  Returns the execution id whose
outcome the caller will receive. -/
def ScrapeQueue.enqueue (s : QueueState) (caller : Nat) (u : String) :
    QueueState × Nat :=
  match lookupKey u s.processing with
  | some e => ({ s with waiters := s.waiters ++ [(caller, e)] }, e)
  | none =>
      let e := s.nextExec
      ({ processing := s.processing ++ [(u, e)]
         nextExec := e + 1
         started := s.started ++ [(e, u)]
         waiters := s.waiters ++ [(caller, e)]
         delivered := s.delivered }, e)

/-- Settlement of the in-flight execution for subject `u` with outcome `o`:
the promise chain's `.then`/`.catch` releases every waiter on that execution
with the one settled outcome, and `.finally` removes the `processing` entry.
A settle for a subject with no in-flight execution changes nothing. -/
def ScrapeQueue.settle (s : QueueState) (u : String) (o : Outcome) :
    QueueState :=
  match lookupKey u s.processing with
  | none => s
  | some e =>
      { s with
        processing := eraseKey u s.processing
        waiters := s.waiters.filter (fun w => !(w.2 = e : Bool))
        delivered := s.delivered ++
          (s.waiters.filter (fun w => (w.2 = e : Bool))).map
            (fun w => (w.1, o)) }

/-- Events observable at the queue boundary. -/
inductive QEvent where
  | enq (caller : Nat) (u : String)
  | settle (u : String) (o : Outcome)
deriving DecidableEq, Repr

/-- One queue transition. -/
def queueStep (s : QueueState) : QEvent → QueueState
  | .enq c u => (ScrapeQueue.enqueue s c u).1
  | .settle u o => ScrapeQueue.settle s u o

/-- The queue singleton starts empty (`new ScrapeQueue()`). -/
def initQueue : QueueState := ⟨[], 0, [], [], []⟩

/-- State reached after a trace of events. -/
def runQueue (evs : List QEvent) : QueueState := evs.foldl queueStep initQueue

lemma lookupKey_eq_none_iff (u : String) (l : List (String × Nat)) :
    lookupKey u l = none ↔ ∀ p ∈ l, p.1 ≠ u := by
  induction l with
  | nil => simp [lookupKey]
  | cons p l ih =>
      by_cases h : p.1 = u
      · simp [lookupKey, h]
      · simp [lookupKey, h, ih]

lemma lookupKey_append (u : String) (l₁ l₂ : List (String × Nat)) :
    lookupKey u (l₁ ++ l₂) =
      match lookupKey u l₁ with
      | some v => some v
      | none => lookupKey u l₂ := by
  induction l₁ with
  | nil => simp [lookupKey]
  | cons p l ih => by_cases h : p.1 = u <;> simp [lookupKey, h, ih]

lemma eraseKey_sublist (u : String) (l : List (String × Nat)) :
    List.Sublist (eraseKey u l) l := by
  induction l with
  | nil => simp [eraseKey]
  | cons p l ih =>
      by_cases h : p.1 = u
      · simp only [eraseKey, if_pos h]
        exact List.sublist_cons_self p l
      · simpa [eraseKey, h] using ih.cons₂ p

lemma lookupKey_eraseKey_self (u : String) (l : List (String × Nat))
    (hnd : (l.map Prod.fst).Nodup) : lookupKey u (eraseKey u l) = none := by
  induction l with
  | nil => simp [eraseKey, lookupKey]
  | cons p l ih =>
      simp only [List.map_cons, List.nodup_cons] at hnd
      by_cases h : p.1 = u
      · simp only [eraseKey, h, if_pos rfl]
        rw [lookupKey_eq_none_iff]
        intro q hq hqu
        exact hnd.1 (h ▸ hqu ▸ List.mem_map_of_mem Prod.fst hq)
      · simp [eraseKey, h, lookupKey, ih hnd.2]

lemma lookupKey_eraseKey_ne (u u' : String) (l : List (String × Nat))
    (h : u ≠ u') : lookupKey u (eraseKey u' l) = lookupKey u l := by
  induction l with
  | nil => simp [eraseKey]
  | cons p l ih =>
      by_cases hp : p.1 = u'
      · have hpu : p.1 ≠ u := fun hh => h (hh.symm.trans hp)
        simp [eraseKey, hp, lookupKey, hpu, Ne.symm h]
      · by_cases hu : p.1 = u <;> simp [eraseKey, hp, lookupKey, hu, h, ih]

/-- Keys of the in-flight map stay distinct along every queue step. -/
lemma queueStep_nodup_keys (s : QueueState)
    (h : (s.processing.map Prod.fst).Nodup) (ev : QEvent) :
    ((queueStep s ev).processing.map Prod.fst).Nodup := by
  cases ev with
  | enq c u =>
      simp only [queueStep, ScrapeQueue.enqueue]
      cases hl : lookupKey u s.processing with
      | some e => simpa using h
      | none =>
          simp only [List.map_append, List.map_cons, List.map_nil,
            List.nodup_append]
          refine ⟨h, List.nodup_singleton u, ?_⟩
          intro a ha hb
          simp only [List.mem_singleton] at hb
          obtain ⟨p, hp, hpa⟩ := List.mem_map.mp ha
          exact (lookupKey_eq_none_iff u s.processing).mp hl p hp (hpa.trans hb)
  | settle u o =>
      simp only [queueStep, ScrapeQueue.settle]
      cases hl : lookupKey u s.processing with
      | none => exact h
      | some e =>
          exact h.sublist ((eraseKey_sublist u s.processing).map Prod.fst)

/-- Every state reachable from the initial queue has distinct in-flight
keys. -/
lemma runQueue_nodup_keys (evs : List QEvent) :
    ((runQueue evs).processing.map Prod.fst).Nodup := by
  suffices h : ∀ s, (s.processing.map Prod.fst).Nodup →
      ((evs.foldl queueStep s).processing.map Prod.fst).Nodup by
    exact h initQueue (by simp [initQueue])
  induction evs with
  | nil => exact fun s hs => hs
  | cons ev evs ih =>
      exact fun s hs => ih _ (queueStep_nodup_keys s hs ev)

/-- **C1** — For every subjectId, enqueueing while an execution for that
subject is in flight starts no second execution: the later caller attaches
to the same pending execution and receives the same outcome as every other
attached caller; the in-flight map holds at most one entry per subjectId in
every reachable state; and the entry is removed exactly when the execution
settles (removed by its settlement with either outcome, and by nothing
else). -/
theorem C1_dedup_queue_single_flight :
    (∀ evs : List QEvent, ((runQueue evs).processing.map Prod.fst).Nodup) ∧
    (∀ s c u e, lookupKey u s.processing = some e →
      ScrapeQueue.enqueue s c u =
        ({ s with waiters := s.waiters ++ [(c, e)] }, e)) ∧
    (∀ s c₁ c₂ u, lookupKey u s.processing = none →
      (queueStep (queueStep s (.enq c₁ u)) (.enq c₂ u)).started =
        s.started ++ [(s.nextExec, u)] ∧
      (c₁, s.nextExec) ∈
        (queueStep (queueStep s (.enq c₁ u)) (.enq c₂ u)).waiters ∧
      (c₂, s.nextExec) ∈
        (queueStep (queueStep s (.enq c₁ u)) (.enq c₂ u)).waiters) ∧
    (∀ s u o e, (s.processing.map Prod.fst).Nodup →
      lookupKey u s.processing = some e →
      lookupKey u (ScrapeQueue.settle s u o).processing = none ∧
      ∀ c, (c, e) ∈ s.waiters →
        (c, o) ∈ (ScrapeQueue.settle s u o).delivered) ∧
    (∀ s u e, lookupKey u s.processing = some e →
      (∀ c u', lookupKey u (queueStep s (.enq c u')).processing = some e) ∧
      (∀ u' o, u ≠ u' →
        lookupKey u (queueStep s (.settle u' o)).processing = some e)) := by
  refine ⟨runQueue_nodup_keys, ?_, ?_, ?_, ?_⟩
  · intro s c u e h
    simp [ScrapeQueue.enqueue, h]
  · intro s c₁ c₂ u h
    have h₁ : lookupKey u (s.processing ++ [(u, s.nextExec)]) =
        some s.nextExec := by
      rw [lookupKey_append, h]; simp [lookupKey]
    refine ⟨?_, ?_, ?_⟩
    · simp [queueStep, ScrapeQueue.enqueue, h, h₁]
    · simp [queueStep, ScrapeQueue.enqueue, h, h₁]
    · simp [queueStep, ScrapeQueue.enqueue, h, h₁]
  · intro s u o e hnd h
    refine ⟨?_, ?_⟩
    · simp only [ScrapeQueue.settle, h]
      exact lookupKey_eraseKey_self u s.processing hnd
    · intro c hc
      simp only [ScrapeQueue.settle, h, List.mem_append]
      right
      exact List.mem_map_of_mem _ (List.mem_filter.mpr ⟨hc, by simp⟩)
  · intro s u e h
    refine ⟨?_, ?_⟩
    · intro c u'
      cases hl : lookupKey u' s.processing with
      | some e' => simp [queueStep, ScrapeQueue.enqueue, hl, h]
      | none =>
          simp [queueStep, ScrapeQueue.enqueue, hl, lookupKey_append, h]
    · intro u' o hne
      cases hl : lookupKey u' s.processing with
      | none => simp [queueStep, ScrapeQueue.settle, hl, h]
      | some e' =>
          simp only [queueStep, ScrapeQueue.settle, hl]
          rw [lookupKey_eraseKey_ne u u' s.processing hne]
          exact h

/-- Witness for C1 at a concrete trace: one enqueue for subject `"u"`, then
settlement with `success 7`; the reachable state has distinct keys and the
waiting caller receives the settled outcome. -/
theorem C1_dedup_queue_single_flight_witness :
    ((runQueue [QEvent.enq 0 "u"]).processing.map Prod.fst).Nodup ∧
    (0, Outcome.success 7) ∈
      (ScrapeQueue.settle (runQueue [QEvent.enq 0 "u"]) "u"
        (Outcome.success 7)).delivered :=
  ⟨C1_dedup_queue_single_flight.1 [QEvent.enq 0 "u"],
   (C1_dedup_queue_single_flight.2.2.2.1 (runQueue [QEvent.enq 0 "u"]) "u"
      (Outcome.success 7) 0 (by decide) (by decide)).2 0 (by decide)⟩

/-! ## Snapshot store (`backend/utils/mongodb.js`)

Times are modelled in seconds (the source uses milliseconds; the TTL index
uses seconds — `expireAfterSeconds: 600` — and the cache cutoff
`maxAgeMinutes * 60 * 1000` ms is `maxAgeMinutes * 60` s).  MongoDB's TTL
deletion is modelled as exact: a document is gone for every read issued at
or after `createdAt + 600`.  A store write either fully succeeds or — when
the backend is unreachable or the driver throws — degrades to a no-op
returning a failure indicator (`none`), which is the contract the callers in
`scrape.js` rely on. -/

/-- `status` field of a snapshots-collection document. -/
inductive RunStatus where
  | processing
  | completed
deriving DecidableEq, Repr

/-- One entry of a document's `steps` array (`$push` in `saveSnapshotStep`):
stage name and captured markup. -/
structure StepData where
  name : String
  html : String
deriving DecidableEq, Repr

/-- One result card (`{username, image}`) extracted at the results stage. -/
structure Card where
  username : String
  image : Option String
deriving DecidableEq, Repr

/-- A document of the `snapshots` collection. -/
structure RunDoc where
  instagramUsername : String
  runId : String
  /-- Mongo `_id`. -/
  docId : Nat
  /-- Set by `$setOnInsert` on the creating upsert; the TTL index key. -/
  createdAt : Nat
  status : RunStatus
  steps : List StepData
  cards : List Card
deriving DecidableEq, Repr

/-- The `snapshots` collection plus the `_id` supply. -/
structure Store where
  docs : List RunDoc
  nextId : Nat
deriving DecidableEq, Repr

/-- `setupTTLIndex`: `expireAfterSeconds: 600` (10 minutes). -/
def ttlSeconds : Nat := 600

/-- A document is still present at `now` iff fewer than `ttlSeconds` seconds
have passed since its `createdAt`; the deletion depends on nothing else. -/
def RunDoc.live (d : RunDoc) (now : Nat) : Bool :=
  decide (now < d.createdAt + ttlSeconds)

/-- Documents visible to a read at `now` (TTL deletion applied).  Reads are
pure functions of the store and never modify it. -/
def Store.visibleDocs (s : Store) (now : Nat) : List RunDoc :=
  s.docs.filter (fun d => d.live now)

/-- The upsert filter `{instagramUsername, runId}`. -/
def matchesRun (u rid : String) (d : RunDoc) : Bool :=
  decide (d.instagramUsername = u ∧ d.runId = rid)

/-- `updateOne`: update the first document matching the filter. -/
def updateFirst (p : RunDoc → Bool) (f : RunDoc → RunDoc) :
    List RunDoc → List RunDoc
  | [] => []
  | d :: ds => if p d then f d :: ds else d :: updateFirst p f ds

/-- `saveSnapshotStep(instagramUsername, runId, stepName, html)`: upsert.
On insert, `$setOnInsert` fixes `instagramUsername`, `runId`, `createdAt`
(the TTL anchor) and `status: "processing"`; either path `$push`es the step.
Returns the document id, or `none` when the write fails (`ok = false`),
leaving the store unchanged. -/
def saveSnapshotStep (s : Store) (now : Nat) (u rid : String)
    (step : StepData) (ok : Bool) : Store × Option Nat :=
  if !ok then (s, none)
  else
    match s.docs.find? (matchesRun u rid) with
    | some d =>
        ({ s with docs := (updateFirst (matchesRun u rid)
            (fun x => { x with steps := x.steps ++ [step] }) s.docs) },
         some d.docId)
    | none =>
        let d : RunDoc :=
          { instagramUsername := u
            runId := rid
            docId := s.nextId
            createdAt := now
            status := .processing
            steps := [step]
            cards := [] }
        ({ docs := s.docs ++ [d], nextId := s.nextId + 1 }, some s.nextId)

/-- `saveSnapshotResult(instagramUsername, runId, cards, steps)`: set the
cards, `status: "completed"` on the matching document (no-op when no
document matches or the write fails). -/
def saveSnapshotResult (s : Store) (u rid : String) (cards : List Card)
    (ok : Bool) : Store :=
  if !ok then s
  else { s with docs := (updateFirst (matchesRun u rid)
      (fun d => { d with cards := cards, status := .completed }) s.docs) }

/-- `getSnapshotStep(snapshotId, stepName)`: markup of the named step of the
document with that id, `none` when the document is absent (in particular
after TTL expiry) or has no such step. -/
def getSnapshotStep (s : Store) (now : Nat) (snapshotId : Nat)
    (stepName : String) : Option String :=
  match (s.visibleDocs now).find? (fun d => decide (d.docId = snapshotId)) with
  | none => none
  | some d =>
      match d.steps.find? (fun st => decide (st.name = stepName)) with
      | none => none
      | some st => some st.html

/-- `getSnapshotByRunId(instagramUsername, runId)`: the completed document
for the pair, if any. -/
def getSnapshotByRunId (s : Store) (now : Nat) (u rid : String) :
    Option RunDoc :=
  (s.visibleDocs now).find?
    (fun d => matchesRun u rid d && decide (d.status = RunStatus.completed))

/-- One comparison step of `findOne` with `sort {createdAt: -1}`. -/
def pickStep (acc : Option RunDoc) (d : RunDoc) : Option RunDoc :=
  match acc with
  | none => some d
  | some m => if m.createdAt < d.createdAt then some d else acc

/-- `findOne` with `sort {createdAt: -1}`: the document with the greatest
`createdAt` (first listed wins a tie). -/
def pickLatest (l : List RunDoc) : Option RunDoc :=
  l.foldl pickStep none

/-- `getRecentSnapshot(instagramUsername, maxAgeMinutes)`: most recent
completed document for the subject whose `createdAt` is not older than the
cutoff `now - maxAgeMinutes * 60`. -/
def getRecentSnapshot (s : Store) (now : Nat) (u : String)
    (maxAgeMinutes : Nat) : Option RunDoc :=
  pickLatest ((s.visibleDocs now).filter (fun d =>
    decide (d.instagramUsername = u) &&
    decide (d.status = RunStatus.completed) &&
    decide (now ≤ d.createdAt + maxAgeMinutes * 60)))

/-! ## Stage capture loop (`backend/scraper/scrape.js`) -/

/-- An entry of the `steps` array returned by `scrape` and handed to the
per-stage `onStep` callback: stage name plus the API path of the stored
markup. -/
structure StepEntry where
  name : String
  htmlPath : String
deriving DecidableEq, Repr

/-- The `htmlPath` built in `captureStep`. -/
def apiSnapshotPath (snapshotId : Nat) (name : String) : String :=
  "/api/snapshots/" ++ toString snapshotId ++ "/" ++ name

/-- Mutable locals of one `scrape(username)` execution. -/
structure ScrapeState where
  store : Store
  steps : List StepEntry
  /-- `onStep(entry)` invocations, in order. -/
  emitted : List StepEntry
  /-- Set from the first successful save. -/
  snapshotId : Option Nat
deriving DecidableEq, Repr

/-- One stage capture attempt: stage name, the markup read from the page,
the capture time, and whether the store write succeeds (`ok = false` models
the store unreachable or the write throwing). -/
structure StageCapture where
  name : String
  html : String
  time : Nat
  ok : Bool
deriving DecidableEq, Repr

/-- `captureStep(name, meta)`: write the snapshot; on failure (`!result ||
!result.snapshotId`, or a thrown error) log and return `null` — no entry is
pushed and `onStep` is not invoked; on success push the
`{name, htmlPath}` entry, record the first snapshot id, and invoke
`onStep(entry)`. -/
def captureStep (u rid : String) (st : ScrapeState) (c : StageCapture) :
    ScrapeState :=
  match saveSnapshotStep st.store c.time u rid ⟨c.name, c.html⟩ c.ok with
  | (store', none) => { st with store := store' }
  | (store', some sid) =>
      let entry : StepEntry := ⟨c.name, apiSnapshotPath sid c.name⟩
      { store := store'
        steps := st.steps ++ [entry]
        emitted := st.emitted ++ [entry]
        snapshotId := match st.snapshotId with
          | some s0 => some s0
          | none => some sid }

/-- The capture part of one `scrape` run: the stage sequence drives
successive `captureStep` calls.  (A soft stage whose readiness signal fails
performs no capture at all; a capture whose store write fails is `ok =
false` — neither produces an entry.) -/
def runCaptures (u rid : String) (st : ScrapeState)
    (cs : List StageCapture) : ScrapeState :=
  cs.foldl (captureStep u rid) st

/-- The value `scrape` resolves with. -/
structure ScrapeResult where
  runId : String
  snapshotId : Option Nat
  steps : List StepEntry
  cards : List Card
deriving DecidableEq, Repr

/-- Tail of `scrape`: save the final result (`saveSnapshotResult`) with the
extracted cards, fall back to `getSnapshotByRunId` for the snapshot id when
no capture succeeded, and build the resolved value. -/
def scrapeFinish (u rid : String) (st : ScrapeState) (cards : List Card)
    (now : Nat) (resultOk : Bool) : Store × ScrapeResult :=
  let store' := saveSnapshotResult st.store u rid cards resultOk
  let sid := match st.snapshotId with
    | some s0 => some s0
    | none => (getSnapshotByRunId store' now u rid).map (fun d => d.docId)
  (store', { runId := rid, snapshotId := sid, steps := st.steps,
             cards := cards })

/-- The cached branch of `GET /api/stalkers` (`server.js`): map a stored
completed document to the same response shape `scrape` resolves with
(name, `/api/snapshots/{id}/{name}` path per step, cards, ids). -/
def cachedResponse (d : RunDoc) : ScrapeResult :=
  { runId := d.runId
    snapshotId := some d.docId
    steps := d.steps.map (fun st => ⟨st.name, apiSnapshotPath d.docId st.name⟩)
    cards := d.cards }

/-- The steps durably persisted by a capture sequence: exactly the captures
whose store write succeeded, in order. -/
def persistedSteps (cs : List StageCapture) : List StepData :=
  (cs.filter (fun c => c.ok)).map (fun c => ⟨c.name, c.html⟩)

lemma find?_append_of_none {α : Type} (p : α → Bool) (l₁ l₂ : List α)
    (h : l₁.find? p = none) : (l₁ ++ l₂).find? p = l₂.find? p := by
  simp [List.find?_append, h]

lemma updateFirst_append_of_none (p : RunDoc → Bool) (f : RunDoc → RunDoc)
    (l₁ l₂ : List RunDoc) (h : l₁.find? p = none) :
    updateFirst p f (l₁ ++ l₂) = l₁ ++ updateFirst p f l₂ := by
  induction l₁ with
  | nil => simp
  | cons a l ih =>
      cases ha : p a with
      | true => simp [List.find?_cons_of_pos _ ha] at h
      | false =>
          rw [List.find?_cons_of_neg _ (by simp [ha])] at h
          simp [updateFirst, ha, ih h]

lemma find?_updateFirst (p : RunDoc → Bool) (f : RunDoc → RunDoc)
    (l : List RunDoc) (d : RunDoc) (h : l.find? p = some d)
    (hf : p (f d) = true) : (updateFirst p f l).find? p = some (f d) := by
  induction l with
  | nil => simp at h
  | cons a l ih =>
      cases ha : p a with
      | true =>
          rw [List.find?_cons_of_pos _ ha] at h
          obtain rfl : a = d := by injection h
          simp [updateFirst, ha, List.find?_cons_of_pos _ hf]
      | false =>
          rw [List.find?_cons_of_neg _ (by simp [ha])] at h
          simp only [updateFirst, ha, Bool.false_eq_true, if_false]
          rw [List.find?_cons_of_neg _ (by simp [ha])]
          exact ih h

/-- The run document as it stands mid-run: created by the first successful
capture (at time `t₁`), carrying the steps persisted so far. -/
def midDoc (u rid : String) (did t₁ : Nat) (L : List StepData) : RunDoc :=
  { instagramUsername := u
    runId := rid
    docId := did
    createdAt := t₁
    status := .processing
    steps := L
    cards := [] }

/-- Shape of the whole scrape state after the first successful capture. -/
def midState (s0 : Store) (u rid : String) (t₁ : Nat) (L : List StepData) :
    ScrapeState :=
  { store := { docs := s0.docs ++ [midDoc u rid s0.nextId t₁ L]
               nextId := s0.nextId + 1 }
    steps := L.map (fun sd => ⟨sd.name, apiSnapshotPath s0.nextId sd.name⟩)
    emitted := L.map (fun sd => ⟨sd.name, apiSnapshotPath s0.nextId sd.name⟩)
    snapshotId := some s0.nextId }

lemma matchesRun_midDoc (u rid : String) (did t₁ : Nat) (L : List StepData) :
    matchesRun u rid (midDoc u rid did t₁ L) = true := by
  simp [matchesRun, midDoc]

lemma runCaptures_cons (u rid : String) (st : ScrapeState)
    (c : StageCapture) (cs : List StageCapture) :
    runCaptures u rid st (c :: cs) =
      runCaptures u rid (captureStep u rid st c) cs := rfl

lemma captureStep_not_ok (u rid : String) (st : ScrapeState)
    (c : StageCapture) (hok : c.ok = false) :
    captureStep u rid st c = st := by
  simp [captureStep, saveSnapshotStep, hok]

lemma saveSnapshotStep_found (s : Store) (now : Nat) (u rid : String)
    (step : StepData) (d : RunDoc)
    (h : s.docs.find? (matchesRun u rid) = some d) :
    saveSnapshotStep s now u rid step true =
      ({ s with docs := (updateFirst (matchesRun u rid)
          (fun x => { x with steps := x.steps ++ [step] }) s.docs) },
       some d.docId) := by
  simp [saveSnapshotStep, h]

lemma saveSnapshotStep_not_found (s : Store) (now : Nat) (u rid : String)
    (step : StepData)
    (h : s.docs.find? (matchesRun u rid) = none) :
    saveSnapshotStep s now u rid step true =
      ({ docs := s.docs ++ [midDoc u rid s.nextId now [step]]
         nextId := s.nextId + 1 }, some s.nextId) := by
  simp [saveSnapshotStep, h, midDoc]

lemma captureStep_midState (s0 : Store) (u rid : String) (t₁ : Nat)
    (L : List StepData) (c : StageCapture) (hok : c.ok = true)
    (hfresh : s0.docs.find? (matchesRun u rid) = none) :
    captureStep u rid (midState s0 u rid t₁ L) c =
      midState s0 u rid t₁ (L ++ [⟨c.name, c.html⟩]) := by
  have hfind : ((s0.docs ++ [midDoc u rid s0.nextId t₁ L]).find?
      (matchesRun u rid)) = some (midDoc u rid s0.nextId t₁ L) := by
    rw [find?_append_of_none _ _ _ hfresh]
    simp [matchesRun_midDoc]
  have hupd : updateFirst (matchesRun u rid)
      (fun x => { x with steps := x.steps ++ [(⟨c.name, c.html⟩ : StepData)] })
      (s0.docs ++ [midDoc u rid s0.nextId t₁ L]) =
      s0.docs ++ [midDoc u rid s0.nextId t₁ (L ++ [⟨c.name, c.html⟩])] := by
    rw [updateFirst_append_of_none _ _ _ _ hfresh]
    simp [updateFirst, matchesRun, midDoc]
  have hsave : saveSnapshotStep (midState s0 u rid t₁ L).store c.time u rid
      ⟨c.name, c.html⟩ c.ok =
      ({ docs := s0.docs ++ [midDoc u rid s0.nextId t₁
           (L ++ [⟨c.name, c.html⟩])]
         nextId := s0.nextId + 1 }, some s0.nextId) := by
    rw [hok, saveSnapshotStep_found _ _ _ _ _ _ hfind]
    show (_, some (midDoc u rid s0.nextId t₁ L).docId) = _
    rw [midState]
    simp only [hupd]
    rfl
  simp only [captureStep, hsave]
  simp [midState, apiSnapshotPath, List.map_append]

lemma runCaptures_midState (s0 : Store) (u rid : String) (t₁ : Nat)
    (cs : List StageCapture) (L : List StepData)
    (hfresh : s0.docs.find? (matchesRun u rid) = none) :
    runCaptures u rid (midState s0 u rid t₁ L) cs =
      midState s0 u rid t₁ (L ++ persistedSteps cs) := by
  induction cs generalizing L with
  | nil => simp [runCaptures, persistedSteps]
  | cons c cs ih =>
      rw [runCaptures_cons]
      cases hok : c.ok with
      | false =>
          rw [captureStep_not_ok u rid _ c hok, ih]
          simp [persistedSteps, hok]
      | true =>
          rw [captureStep_midState s0 u rid t₁ L c hok hfresh, ih]
          simp [persistedSteps, hok]

lemma captureStep_initial (s0 : Store) (u rid : String) (c : StageCapture)
    (hok : c.ok = true)
    (hfresh : s0.docs.find? (matchesRun u rid) = none) :
    captureStep u rid ⟨s0, [], [], none⟩ c =
      midState s0 u rid c.time [⟨c.name, c.html⟩] := by
  have hsave : saveSnapshotStep (ScrapeState.mk s0 [] [] none).store c.time
      u rid ⟨c.name, c.html⟩ c.ok =
      ({ docs := s0.docs ++ [midDoc u rid s0.nextId c.time
           [⟨c.name, c.html⟩]]
         nextId := s0.nextId + 1 }, some s0.nextId) := by
    rw [hok]
    exact saveSnapshotStep_not_found s0 c.time u rid ⟨c.name, c.html⟩ hfresh
  simp only [captureStep, hsave]
  simp [midState, apiSnapshotPath]

/-- Closed form of the capture loop started on a store holding no document
for the (subject, run) pair: no successful capture leaves everything
unchanged; otherwise the first successful capture creates the document
(anchoring `createdAt` at its time) and the final state carries exactly the
persisted steps. -/
lemma runCaptures_spec (s0 : Store) (u rid : String)
    (cs : List StageCapture)
    (hfresh : s0.docs.find? (matchesRun u rid) = none) :
    runCaptures u rid ⟨s0, [], [], none⟩ cs =
      match (cs.filter (fun c => c.ok)).head? with
      | none => ⟨s0, [], [], none⟩
      | some c₁ => midState s0 u rid c₁.time (persistedSteps cs) := by
  induction cs with
  | nil => simp [runCaptures]
  | cons c cs ih =>
      rw [runCaptures_cons]
      cases hok : c.ok with
      | false =>
          rw [captureStep_not_ok u rid _ c hok, ih]
          simp [hok, persistedSteps]
      | true =>
          rw [captureStep_initial s0 u rid c hok hfresh,
            runCaptures_midState s0 u rid c.time cs _ hfresh]
          simp [hok, persistedSteps]

lemma pickStep_foldl_mem (l : List RunDoc) :
    ∀ (acc : Option RunDoc) (d : RunDoc),
      l.foldl pickStep acc = some d → d ∈ l ∨ acc = some d := by
  induction l with
  | nil => intro acc d h; right; exact h
  | cons a l ih =>
      intro acc d h
      rcases ih (pickStep acc a) d h with hm | he
      · exact Or.inl (List.mem_cons_of_mem a hm)
      · cases acc with
        | none =>
            obtain rfl : a = d := by simpa [pickStep] using he
            exact Or.inl (List.mem_cons_self a l)
        | some m =>
            by_cases hlt : m.createdAt < a.createdAt
            · obtain rfl : a = d := by simpa [pickStep, hlt] using he
              exact Or.inl (List.mem_cons_self a l)
            · right; simpa [pickStep, hlt] using he

lemma pickLatest_mem (l : List RunDoc) (d : RunDoc)
    (h : pickLatest l = some d) : d ∈ l := by
  rcases pickStep_foldl_mem l none d h with hm | he
  · exact hm
  · cases he

lemma pickLatest_append_strict (l : List RunDoc) (d : RunDoc)
    (h : ∀ x ∈ l, x.createdAt < d.createdAt) :
    pickLatest (l ++ [d]) = some d := by
  unfold pickLatest
  rw [List.foldl_append]
  cases hacc : l.foldl pickStep none with
  | none => simp [pickStep]
  | some m =>
      have hm : m ∈ l := pickLatest_mem l m hacc
      simp [pickStep, h m hm]

/-- Every document `getRecentSnapshot` returns is in the store, belongs to
the subject, is completed, is still live (its TTL has not elapsed) and is
within the cache cutoff. -/
lemma getRecentSnapshot_spec (s : Store) (now : Nat) (u : String) (m : Nat)
    (d : RunDoc) (h : getRecentSnapshot s now u m = some d) :
    d ∈ s.docs ∧ d.instagramUsername = u ∧
    d.status = RunStatus.completed ∧ now < d.createdAt + ttlSeconds ∧
    now ≤ d.createdAt + m * 60 := by
  have hm := pickLatest_mem _ _ h
  have h1 := List.mem_filter.mp hm
  have h2 := List.mem_filter.mp h1.1
  have h3 := h1.2
  simp only [Bool.and_eq_true, decide_eq_true_eq] at h3
  refine ⟨h2.1, h3.1.1, h3.1.2, ?_, h3.2⟩
  have := h2.2
  simpa [RunDoc.live] using this

/-- `getRecentSnapshot` on a store whose last document is eligible and
strictly newer than every other eligible document returns it. -/
lemma getRecentSnapshot_eq_last (s : Store) (now : Nat) (u : String)
    (m : Nat) (l : List RunDoc) (D : RunDoc) (hdocs : s.docs = l ++ [D])
    (hsub : D.instagramUsername = u) (hst : D.status = RunStatus.completed)
    (hlive : now < D.createdAt + ttlSeconds)
    (hcut : now ≤ D.createdAt + m * 60)
    (hmax : ∀ x ∈ l, x.instagramUsername = u →
      x.status = RunStatus.completed → now < x.createdAt + ttlSeconds →
      now ≤ x.createdAt + m * 60 → x.createdAt < D.createdAt) :
    getRecentSnapshot s now u m = some D := by
  unfold getRecentSnapshot Store.visibleDocs
  rw [hdocs, List.filter_append, List.filter_append]
  have hD1 : (([D] : List RunDoc).filter (fun d => d.live now)) = [D] := by
    simp [RunDoc.live, hlive]
  have hD2 : (([D] : List RunDoc).filter (fun d =>
      decide (d.instagramUsername = u) &&
      decide (d.status = RunStatus.completed) &&
      decide (now ≤ d.createdAt + m * 60))) = [D] := by
    simp [hsub, hst, hcut]
  rw [hD1, hD2]
  apply pickLatest_append_strict
  intro x hx
  have h1 := List.mem_filter.mp hx
  have h2 := List.mem_filter.mp h1.1
  have h3 := h1.2
  simp only [Bool.and_eq_true, decide_eq_true_eq] at h3
  have hlivex : now < x.createdAt + ttlSeconds := by
    simpa [RunDoc.live] using h2.2
  exact hmax x h2.1 h3.1.1 h3.1.2 hlivex h3.2

/-- The run document once the run completed: cards attached, status
`"completed"`, `createdAt` still the first capture's time. -/
def doneDoc (u rid : String) (did t₁ : Nat) (L : List StepData)
    (cards : List Card) : RunDoc :=
  { instagramUsername := u
    runId := rid
    docId := did
    createdAt := t₁
    status := .completed
    steps := L
    cards := cards }

lemma matchesRun_doneDoc (u rid : String) (did t₁ : Nat) (L : List StepData)
    (cards : List Card) : matchesRun u rid (doneDoc u rid did t₁ L cards) = true := by
  simp [matchesRun, doneDoc]

/-- Closed form of a whole scrape run (captures then completion) on a store
with no document for the pair, when at least one capture succeeded. -/
lemma scrapeFinish_spec (s0 : Store) (u rid : String)
    (cs : List StageCapture) (cards : List Card) (tc : Nat)
    (c₁ : StageCapture)
    (hfresh : s0.docs.find? (matchesRun u rid) = none)
    (hc₁ : (cs.filter (fun c => c.ok)).head? = some c₁) :
    scrapeFinish u rid (runCaptures u rid ⟨s0, [], [], none⟩ cs) cards tc
        true =
      ({ docs := s0.docs ++
           [doneDoc u rid s0.nextId c₁.time (persistedSteps cs) cards]
         nextId := s0.nextId + 1 },
       { runId := rid
         snapshotId := some s0.nextId
         steps := (persistedSteps cs).map
           (fun sd => ⟨sd.name, apiSnapshotPath s0.nextId sd.name⟩)
         cards := cards }) := by
  rw [runCaptures_spec s0 u rid cs hfresh, hc₁]
  have hupd : updateFirst (matchesRun u rid)
      (fun d => { d with cards := cards, status := .completed })
      (s0.docs ++ [midDoc u rid s0.nextId c₁.time (persistedSteps cs)]) =
      s0.docs ++
        [doneDoc u rid s0.nextId c₁.time (persistedSteps cs) cards] := by
    rw [updateFirst_append_of_none _ _ _ _ hfresh]
    simp [updateFirst, matchesRun, midDoc, doneDoc]
  simp only [scrapeFinish, saveSnapshotResult, midState, Bool.not_true,
    Bool.false_eq_true, if_false, hupd]

/-- **C2** — A Run document's expiry is anchored at its creation:
`createdAt` is fixed by `$setOnInsert` at the first successful
`appendStage` for the (subjectId, runId) pair and is untouched by every
later append (i); through a whole run it stays the time of the first
successful capture (ii); the store drops the document exactly
`ttlSeconds = 600` seconds after `createdAt`, regardless of reads (reads
are pure functions of the store): `getRecent` never returns an expired
document (iii), and `getStageMarkup` returns not-found — the ordinary
`none`, not an error — once the document has expired (iv). -/
theorem C2_run_expiry_anchored_at_creation :
    (∀ (s : Store) (now : Nat) (u rid : String) (step : StepData)
       (ok : Bool) (d : RunDoc),
       s.docs.find? (matchesRun u rid) = some d →
       ∀ d', (saveSnapshotStep s now u rid step ok).1.docs.find?
           (matchesRun u rid) = some d' → d'.createdAt = d.createdAt) ∧
    (∀ (s0 : Store) (u rid : String) (cs : List StageCapture)
       (cards : List Card) (tc : Nat) (c₁ : StageCapture),
       s0.docs.find? (matchesRun u rid) = none →
       (cs.filter (fun c => c.ok)).head? = some c₁ →
       ∀ d, (scrapeFinish u rid (runCaptures u rid ⟨s0, [], [], none⟩ cs)
           cards tc true).1.docs.find? (matchesRun u rid) = some d →
         d.createdAt = c₁.time) ∧
    (∀ (s : Store) (now : Nat) (u : String) (m : Nat) (d : RunDoc),
       getRecentSnapshot s now u m = some d →
       now < d.createdAt + ttlSeconds) ∧
    (∀ (s : Store) (now sid : Nat) (nm : String),
       (∀ d ∈ s.docs, d.docId = sid → d.createdAt + ttlSeconds ≤ now) →
       getSnapshotStep s now sid nm = none) := by
  refine ⟨?_, ?_, ?_, ?_⟩
  · intro s now u rid step ok d hd d' hd'
    cases ok with
    | false =>
        have hsave : saveSnapshotStep s now u rid step false = (s, none) := by
          simp [saveSnapshotStep]
        rw [hsave] at hd'
        have hd2 : List.find? (matchesRun u rid) s.docs = some d' := hd'
        rw [hd] at hd2
        injection hd2 with h
        rw [← h]
    | true =>
        rw [saveSnapshotStep_found s now u rid step d hd] at hd'
        have hd2 : (updateFirst (matchesRun u rid)
            (fun x => { x with steps := x.steps ++ [step] }) s.docs).find?
            (matchesRun u rid) = some d' := hd'
        have hpf : matchesRun u rid
            ((fun x => { x with steps := x.steps ++ [step] }) d) = true := by
          have := List.find?_some hd
          simpa [matchesRun] using this
        rw [find?_updateFirst (matchesRun u rid)
          (fun x => { x with steps := x.steps ++ [step] }) s.docs d hd hpf]
          at hd2
        injection hd2 with h
        rw [← h]
  · intro s0 u rid cs cards tc c₁ hfresh hc₁ d hd
    rw [scrapeFinish_spec s0 u rid cs cards tc c₁ hfresh hc₁] at hd
    rw [find?_append_of_none _ _ _ hfresh] at hd
    simp [matchesRun_doneDoc] at hd
    rw [← hd]
    rfl
  · intro s now u m d h
    exact (getRecentSnapshot_spec s now u m d h).2.2.2.1
  · intro s now sid nm h
    have hnone : (s.visibleDocs now).find?
        (fun d => decide (d.docId = sid)) = none := by
      rw [List.find?_eq_none]
      intro x hx
      have h1 := List.mem_filter.mp hx
      have hlive : now < x.createdAt + ttlSeconds := by
        simpa [RunDoc.live] using h1.2
      simp only [decide_eq_true_eq]
      intro hxid
      exact absurd (h x h1.1 hxid) (by omega)
    simp [getSnapshotStep, hnone]

/-- Witness for C2 at concrete inputs: a second append preserves the
`createdAt` of a document created at time 5, a concrete `getRecent` hit is
within its TTL, and `getStageMarkup` on an expired store is `none`. -/
theorem C2_run_expiry_anchored_at_creation_witness :
    (∀ d', ((saveSnapshotStep ⟨[doneDoc "u" "1" 0 5 [] []], 1⟩ 9 "u" "1"
        ⟨"results", "<html>"⟩ true).1.docs.find?
        (matchesRun "u" "1") = some d') → d'.createdAt = 5) ∧
    (7 < (doneDoc "u" "1" 0 5 [] []).createdAt + ttlSeconds) ∧
    getSnapshotStep ⟨[doneDoc "u" "1" 0 5 [] []], 1⟩ 700 0 "results" =
      none := by
  refine ⟨?_, ?_, ?_⟩
  · intro d' hd'
    have := C2_run_expiry_anchored_at_creation.1
      ⟨[doneDoc "u" "1" 0 5 [] []], 1⟩ 9 "u" "1" ⟨"results", "<html>"⟩ true
      (doneDoc "u" "1" 0 5 [] []) (by decide) d' hd'
    simpa [doneDoc] using this
  · exact C2_run_expiry_anchored_at_creation.2.2.1
      ⟨[doneDoc "u" "1" 0 5 [] []], 1⟩ 7 "u" 60 (doneDoc "u" "1" 0 5 [] [])
      (by decide)
  · exact C2_run_expiry_anchored_at_creation.2.2.2
      ⟨[doneDoc "u" "1" 0 5 [] []], 1⟩ 700 0 "results" (by decide)

/-- **C3** — For a completed Run that is the most recent completed Run of
its subject, `getRecent` within the TTL window (600 s, with the server's
cutoff no tighter: `10 ≤ maxAgeMinutes`) returns that Run, and the cached
response built from it equals the value `scrape` resolved with at
completion — same cards, same steps with the same names and paths, same
runId and snapshotId, nothing more or less (full `ScrapeResult` equality).
Once the TTL has elapsed, `getRecent` no longer returns this Run's
document. -/
theorem C3_getRecent_returns_completion_data :
    ∀ (s0 : Store) (u rid : String) (cs : List StageCapture)
      (cards : List Card) (tc t m : Nat) (c₁ : StageCapture),
      s0.docs.find? (matchesRun u rid) = none →
      (cs.filter (fun c => c.ok)).head? = some c₁ →
      10 ≤ m →
      t < c₁.time + ttlSeconds →
      (∀ x ∈ s0.docs, x.instagramUsername = u →
        x.status = RunStatus.completed → t < x.createdAt + ttlSeconds →
        t ≤ x.createdAt + m * 60 → x.createdAt < c₁.time) →
      ((getRecentSnapshot (scrapeFinish u rid
          (runCaptures u rid ⟨s0, [], [], none⟩ cs) cards tc true).1
          t u m).map cachedResponse =
        some (scrapeFinish u rid
          (runCaptures u rid ⟨s0, [], [], none⟩ cs) cards tc true).2) ∧
      (∀ t', c₁.time + ttlSeconds ≤ t' →
        ∀ d, getRecentSnapshot (scrapeFinish u rid
            (runCaptures u rid ⟨s0, [], [], none⟩ cs) cards tc true).1
            t' u m = some d →
          ¬(d.instagramUsername = u ∧ d.runId = rid)) := by
  intro s0 u rid cs cards tc t m c₁ hfresh hc₁ hm ht hmost
  rw [scrapeFinish_spec s0 u rid cs cards tc c₁ hfresh hc₁]
  have hcut : t ≤ c₁.time + m * 60 := by
    have h600 : ttlSeconds ≤ m * 60 := by
      calc ttlSeconds = 10 * 60 := rfl
        _ ≤ m * 60 := Nat.mul_le_mul_right 60 hm
    omega
  constructor
  · have hrec := getRecentSnapshot_eq_last
      ({ docs := s0.docs ++
           [doneDoc u rid s0.nextId c₁.time (persistedSteps cs) cards]
         nextId := s0.nextId + 1 }) t u m s0.docs
      (doneDoc u rid s0.nextId c₁.time (persistedSteps cs) cards) rfl rfl
      rfl ht hcut (fun x hx h1 h2 h3 h4 => hmost x hx h1 h2 h3 h4)
    rw [hrec]
    simp [cachedResponse, doneDoc]
  · intro t' ht' d hd
    obtain ⟨hmem, _, _, hlivet', _⟩ := getRecentSnapshot_spec _ t' u m d hd
    rintro ⟨hdu, hdr⟩
    have hmatch : matchesRun u rid d = true := by
      simp [matchesRun, hdu, hdr]
    rcases List.mem_append.mp hmem with hin0 | hinD
    · exact absurd hmatch
        (by simpa using (List.find?_eq_none.mp hfresh) d hin0)
    · have hdD : d = doneDoc u rid s0.nextId c₁.time (persistedSteps cs)
          cards := by simpa using hinD
      rw [hdD] at hlivet'
      have : t' < c₁.time + ttlSeconds := hlivet'
      omega

/-- Witness for C3 at a concrete run: empty initial store, one successful
capture at time 5, completion at time 6, lookup at time 7 with the server's
60-minute cutoff. -/
theorem C3_getRecent_returns_completion_data_witness :
    (getRecentSnapshot (scrapeFinish "u" "1"
        (runCaptures "u" "1" ⟨⟨[], 0⟩, [], [], none⟩
          [⟨"landing", "<html>", 5, true⟩]) [⟨"bob", none⟩] 6 true).1
        7 "u" 60).map cachedResponse =
      some (scrapeFinish "u" "1"
        (runCaptures "u" "1" ⟨⟨[], 0⟩, [], [], none⟩
          [⟨"landing", "<html>", 5, true⟩]) [⟨"bob", none⟩] 6 true).2 :=
  (C3_getRecent_returns_completion_data ⟨[], 0⟩ "u" "1"
    [⟨"landing", "<html>", 5, true⟩] [⟨"bob", none⟩] 6 7 60
    ⟨"landing", "<html>", 5, true⟩ (by decide) (by decide) (by decide)
    (by decide) (by intro x hx; simp at hx)).1

/-- **C9** — A stage whose snapshot write fails is silently omitted: the
`captureStep` leaves the whole scrape state unchanged (no step entry, no
`onStep` invocation) and the run continues identically to a run without
that stage (i, ii); the final steps list names exactly the stages whose
snapshots were persisted, in order, and the `onStep` callback was invoked
exactly for those entries (iii). -/
theorem C9_failed_snapshot_saves_are_omitted :
    (∀ (u rid : String) (st : ScrapeState) (c : StageCapture),
       c.ok = false → captureStep u rid st c = st) ∧
    (∀ (u rid : String) (st : ScrapeState) (cs₁ cs₂ : List StageCapture)
       (c : StageCapture), c.ok = false →
       runCaptures u rid st (cs₁ ++ c :: cs₂) =
         runCaptures u rid st (cs₁ ++ cs₂)) ∧
    (∀ (s0 : Store) (u rid : String) (cs : List StageCapture),
       s0.docs.find? (matchesRun u rid) = none →
       (runCaptures u rid ⟨s0, [], [], none⟩ cs).steps.map
           StepEntry.name =
         (cs.filter (fun c => c.ok)).map StageCapture.name ∧
       (runCaptures u rid ⟨s0, [], [], none⟩ cs).emitted =
         (runCaptures u rid ⟨s0, [], [], none⟩ cs).steps) := by
  refine ⟨captureStep_not_ok, ?_, ?_⟩
  · intro u rid st cs₁ cs₂ c hok
    unfold runCaptures
    rw [List.foldl_append, List.foldl_append, List.foldl_cons,
      captureStep_not_ok u rid _ c hok]
  · intro s0 u rid cs hfresh
    rw [runCaptures_spec s0 u rid cs hfresh]
    cases hh : (cs.filter (fun c => c.ok)).head? with
    | none =>
        have : cs.filter (fun c => c.ok) = [] :=
          List.head?_eq_none_iff.mp hh
        simp [this]
    | some c₁ =>
        constructor
        · simp [midState, persistedSteps, List.map_map]
        · simp [midState]

/-- Witness for C9: a failing capture between two successful ones changes
nothing, and the resulting step names are exactly the successful stages. -/
theorem C9_failed_snapshot_saves_are_omitted_witness :
    runCaptures "u" "1" ⟨⟨[], 0⟩, [], [], none⟩
        ([⟨"landing", "<a>", 1, true⟩] ++ ⟨"analyzing", "<b>", 2, false⟩ ::
          [⟨"results", "<c>", 3, true⟩]) =
      runCaptures "u" "1" ⟨⟨[], 0⟩, [], [], none⟩
        ([⟨"landing", "<a>", 1, true⟩] ++ [⟨"results", "<c>", 3, true⟩]) ∧
    (runCaptures "u" "1" ⟨⟨[], 0⟩, [], [], none⟩
        [⟨"landing", "<a>", 1, true⟩, ⟨"analyzing", "<b>", 2, false⟩,
         ⟨"results", "<c>", 3, true⟩]).steps.map StepEntry.name =
      ["landing", "results"] :=
  ⟨C9_failed_snapshot_saves_are_omitted.2.1 "u" "1" ⟨⟨[], 0⟩, [], [], none⟩
      [⟨"landing", "<a>", 1, true⟩] [⟨"results", "<c>", 3, true⟩]
      ⟨"analyzing", "<b>", 2, false⟩ rfl,
   by
    rw [(C9_failed_snapshot_saves_are_omitted.2.2 ⟨[], 0⟩ "u" "1"
      [⟨"landing", "<a>", 1, true⟩, ⟨"analyzing", "<b>", 2, false⟩,
       ⟨"results", "<c>", 3, true⟩] (by decide)).1]
    decide⟩

/-! ## Terminal results-wait polling loop (`scrape.js`, step 6) -/

/-- Rendered geometry of one result-card element
(`getBoundingClientRect()`), in whole pixels. -/
structure RenderedCard where
  width : Nat
  height : Nat
deriving DecidableEq, Repr

/-- The per-tick readiness check run inside `page.evaluate`: no cards →
not ready; otherwise ready iff at least one card has non-zero rendered
width and height. -/
def checkCards (cards : List RenderedCard) : Bool :=
  if cards.length = 0 then false
  else cards.any (fun c => decide (0 < c.width) && decide (0 < c.height))

/-- `pollInterval = 100` ms. -/
def pollIntervalMs : Nat := 100

/-- `maxWaitTime = 60000` ms. -/
def maxWaitTimeMs : Nat := 60000

/-- The loop checks while `elapsed < maxWaitTime` and sleeps `pollInterval`
between checks, so the checks happen at ticks `0, 1, …, maxTicks - 1`
(elapsed `0 ms, 100 ms, …, 59900 ms`). -/
def maxTicks : Nat := maxWaitTimeMs / pollIntervalMs

/-- The polling loop from tick `k` with `r` checks remaining: the tick at
which the predicate first held, or `none` when the deadline passed with the
predicate never satisfied (after which `scrape` throws
`Cards did not appear within timeout period`). -/
def pollFrom (ready : Nat → Bool) (k : Nat) : Nat → Option Nat
  | 0 => none
  | r + 1 => if ready k then some k else pollFrom ready (k + 1) r

/-- The whole results-wait: poll `checkCards` over the page state (the
result cards present at each 100 ms tick) until success or the 60 s
deadline. -/
def resultsWait (pageCards : Nat → List RenderedCard) : Option Nat :=
  pollFrom (fun k => checkCards (pageCards k)) 0 maxTicks

lemma pollFrom_some_spec (ready : Nat → Bool) :
    ∀ (r k₀ k : Nat), pollFrom ready k₀ r = some k →
      k₀ ≤ k ∧ k < k₀ + r ∧ ready k = true ∧
      ∀ j, k₀ ≤ j → j < k → ready j = false := by
  intro r
  induction r with
  | zero => intro k₀ k h; cases h
  | succ r ih =>
      intro k₀ k h
      by_cases hk : ready k₀ = true
      · rw [pollFrom, if_pos hk] at h
        injection h with h
        subst h
        exact ⟨Nat.le_refl _, by omega, hk, fun j h1 h2 => absurd h1 (by omega)⟩
      · rw [pollFrom, if_neg hk] at h
        obtain ⟨h1, h2, h3, h4⟩ := ih (k₀ + 1) k h
        refine ⟨by omega, by omega, h3, ?_⟩
        intro j hj1 hj2
        rcases Nat.eq_or_lt_of_le hj1 with rfl | hlt
        · exact Bool.not_eq_true _ ▸ (by simpa using hk)
        · exact h4 j hlt hj2

lemma pollFrom_none_iff (ready : Nat → Bool) :
    ∀ (r k₀ : Nat), pollFrom ready k₀ r = none ↔
      ∀ k, k₀ ≤ k → k < k₀ + r → ready k = false := by
  intro r
  induction r with
  | zero => intro k₀; simp [pollFrom]; intro k h1 h2; omega
  | succ r ih =>
      intro k₀
      by_cases hk : ready k₀ = true
      · rw [pollFrom, if_pos hk]
        constructor
        · intro h; cases h
        · intro h
          have hc := h k₀ (Nat.le_refl _) (by omega)
          rw [hk] at hc
          cases hc
      · rw [pollFrom, if_neg hk, ih]
        constructor
        · intro h k h1 h2
          rcases Nat.eq_or_lt_of_le h1 with rfl | hlt
          · simpa using hk
          · exact h k hlt (by omega)
        · intro h k h1 h2
          exact h k (by omega) (by omega)

/-- **C5** — The terminal results-wait is a bounded polling loop: the
readiness predicate (at least one result-card element with non-zero
rendered width and height) is checked once per tick, ticks are 100 ms
apart and bounded by the 60 s deadline (600 checks in all); the loop
returns the first tick whose check succeeds, and returns nothing — the run
then aborts fatally — exactly when no tick within the deadline satisfies
the predicate.  (`resultsWait` is a total function: every execution
terminates by the deadline.) -/
theorem C5_results_wait_bounded_polling :
    (∀ (pageCards : Nat → List RenderedCard) (k : Nat),
       resultsWait pageCards = some k →
       k < maxTicks ∧ checkCards (pageCards k) = true ∧
       ∀ j < k, checkCards (pageCards j) = false) ∧
    (∀ pageCards : Nat → List RenderedCard,
       resultsWait pageCards = none ↔
       ∀ k < maxTicks, checkCards (pageCards k) = false) ∧
    maxTicks * pollIntervalMs = maxWaitTimeMs ∧
    (∀ cards : List RenderedCard, checkCards cards = true ↔
       ∃ c ∈ cards, 0 < c.width ∧ 0 < c.height) := by
  refine ⟨?_, ?_, rfl, ?_⟩
  · intro pageCards k h
    obtain ⟨h1, h2, h3, h4⟩ :=
      pollFrom_some_spec (fun k => checkCards (pageCards k)) maxTicks 0 k h
    exact ⟨by omega, h3, fun j hj => h4 j (Nat.zero_le j) hj⟩
  · intro pageCards
    rw [resultsWait, pollFrom_none_iff]
    constructor
    · intro h k hk; exact h k (Nat.zero_le k) (by omega)
    · intro h k _ hk; exact h k (by omega)
  · intro cards
    constructor
    · intro h
      rcases hlen : cards.length with _ | n
      · rw [checkCards, if_pos (by simp [hlen])] at h
        cases h
      · rw [checkCards, if_neg (by simp [hlen])] at h
        obtain ⟨c, hc, hwh⟩ := List.any_eq_true.mp h
        simp only [Bool.and_eq_true, decide_eq_true_eq] at hwh
        exact ⟨c, hc, hwh⟩
    · rintro ⟨c, hc, hw, hh⟩
      have hlen : cards.length ≠ 0 := by
        intro h0
        rw [List.length_eq_zero] at h0
        simp [h0] at hc
      rw [checkCards, if_neg hlen]
      exact List.any_eq_true.mpr ⟨c, hc, by simp [hw, hh]⟩

/-- Witness for C5: cards become visible at tick 3, so the loop returns
tick 3 — within the deadline, with the predicate false on every earlier
tick. -/
theorem C5_results_wait_bounded_polling_witness :
    3 < maxTicks ∧
    checkCards ((fun k => if 3 ≤ k then [⟨10, 20⟩] else []) 3) = true ∧
    resultsWait (fun k => if 3 ≤ k then [⟨10, 20⟩] else []) = some 3 :=
  have h : resultsWait (fun k => if 3 ≤ k then [⟨10, 20⟩] else []) =
      some 3 := by decide
  ⟨(C5_results_wait_bounded_polling.1 _ 3 h).1,
   (C5_results_wait_bounded_polling.1 _ 3 h).2.1, h⟩

/-! ## Hard-stage failure messages (`scrape.js`)

On a hard-stage failure `scrape` throws.  What each thrown message contains
is embedded verbatim from the `throw new Error(...)` sites; the page's
interactive elements at failure time are the `$$eval` projections (trimmed
button texts; serialized input descriptors). -/

/-- Interactive elements present on the page at failure time. -/
structure PageElems where
  /-- Trimmed non-empty button texts (`page.$$eval('button', …)`). -/
  buttons : List String
  /-- Serialized input descriptors (`page.$$eval('input, textarea', …)`,
  one JSON object per input). -/
  inputs : List String
deriving DecidableEq, Repr

/-- `Array.prototype.join(sep)`. -/
def joinSep (sep : String) : List String → String
  | [] => ""
  | [x] => x
  | x :: y :: xs => x ++ sep ++ joinSep sep (y :: xs)

/-- `pat` begins `s`. -/
def startsWithL : List Char → List Char → Bool
  | _, [] => true
  | [], _ :: _ => false
  | c :: s, p :: ps => decide (c = p) && startsWithL s ps

/-- `pat` occurs contiguously somewhere in `s`. -/
def containsL : List Char → List Char → Bool
  | [], pat => startsWithL [] pat
  | c :: s, pat => startsWithL (c :: s) pat || containsL s pat

/-- Substring test on strings. -/
def containsStr (s pat : String) : Bool := containsL s.data pat.data

/-- The stages of the fixed sequence that abort the Run on failure. -/
inductive HardStage where
  /-- Step 2: the "Reveal Stalkers" button (the flow's trigger action). -/
  | triggerAction
  /-- Step 3: the username input field. -/
  | identifierEntry
  /-- Step 4: the first "Continue" button. -/
  | continueAction
  /-- Step 5: the profile-confirmation button. -/
  | confirmAction
  /-- Step 6: the results polling deadline. -/
  | resultsWaitStage
deriving DecidableEq, Repr

/-- The message of the fatal error `scrape` throws at each hard-stage
failure, as a function of the page contents and of the underlying driver
error's message (`err.message`), verbatim from the `throw` sites. -/
def hardStageErrorMsg (st : HardStage) (p : PageElems)
    (driverErr : String) : String :=
  match st with
  | .triggerAction =>
      "Could not find \"Reveal Stalkers\" button. Available buttons: " ++
        joinSep ", " p.buttons
  | .identifierEntry =>
      "Could not find username input. Available inputs: [" ++
        joinSep "," p.inputs ++ "]"
  | .continueAction => "Could not find Continue button: " ++ driverErr
  | .confirmAction =>
      "Could not find profile confirmation button: " ++ driverErr
  | .resultsWaitStage => "Cards did not appear within timeout period"

/-- The interactive elements a stage's failure diagnosis is about: the
inputs for the identifier-entry stage, the buttons otherwise. -/
def relevantElems (st : HardStage) (p : PageElems) : List String :=
  match st with
  | .identifierEntry => p.inputs
  | _ => p.buttons

lemma startsWithL_append_self (pat r : List Char) :
    startsWithL (pat ++ r) pat = true := by
  induction pat with
  | nil => cases r <;> rfl
  | cons c cs ih => simp [startsWithL, ih]

lemma startsWithL_append_extend (s t pat : List Char)
    (h : startsWithL s pat = true) : startsWithL (s ++ t) pat = true := by
  induction pat generalizing s with
  | nil => cases s <;> cases t <;> rfl
  | cons p ps ih =>
      cases s with
      | nil => cases h
      | cons c s' =>
          simp only [startsWithL, Bool.and_eq_true] at h
          simp [startsWithL, h.1, ih s' h.2]

lemma containsL_of_startsWithL (s pat : List Char)
    (h : startsWithL s pat = true) : containsL s pat = true := by
  cases s with
  | nil => exact h
  | cons c s' => simp [containsL, h]

lemma containsL_append_left (t s pat : List Char)
    (h : containsL s pat = true) : containsL (t ++ s) pat = true := by
  induction t with
  | nil => exact h
  | cons c t' ih => simp [containsL, ih]

lemma containsL_append_right (s t pat : List Char)
    (h : containsL s pat = true) : containsL (s ++ t) pat = true := by
  induction s with
  | nil =>
      cases pat with
      | nil => exact containsL_of_startsWithL _ _ (by cases t <;> rfl)
      | cons p ps => cases h
  | cons c s' ih =>
      simp only [containsL, Bool.or_eq_true] at h
      rcases h with h | h
      · exact containsL_of_startsWithL _ _
          (by simpa using startsWithL_append_extend (c :: s') t _ h)
      · simp [containsL, ih h]

lemma containsL_mem_join (sep : String) (l : List String) (b : String)
    (hb : b ∈ l) : containsL (joinSep sep l).data b.data = true := by
  induction l with
  | nil => cases hb
  | cons x xs ih =>
      cases xs with
      | nil =>
          obtain rfl : b = x := by simpa using hb
          exact containsL_of_startsWithL _ _
            (by simpa using startsWithL_append_self b.data [])
      | cons y ys =>
          rcases List.mem_cons.mp hb with rfl | hmem
          · show containsL (b ++ sep ++ joinSep sep (y :: ys)).data
                b.data = true
            simp only [String.data_append]
            rw [List.append_assoc]
            exact containsL_of_startsWithL _ _ (startsWithL_append_self _ _)
          · show containsL (x ++ sep ++ joinSep sep (y :: ys)).data
                b.data = true
            simp only [String.data_append]
            exact containsL_append_left _ _ _ (ih hmem)

/-- **C4 counterexample** — at the results-wait stage the thrown message is
the fixed string `Cards did not appear within timeout period`: for a page
whose only interactive element is a button labelled `SomeButton`, that
element is not enumerated in (does not even occur in) the error message,
contradicting the claim for one of its three named hard stages. -/
theorem C4_counterexample_results_wait_message :
    "SomeButton" ∈ relevantElems HardStage.resultsWaitStage
      ⟨["SomeButton"], []⟩ ∧
    hardStageErrorMsg HardStage.resultsWaitStage ⟨["SomeButton"], []⟩
      "Timeout 60000ms exceeded" =
      "Cards did not appear within timeout period" ∧
    containsStr (hardStageErrorMsg HardStage.resultsWaitStage
      ⟨["SomeButton"], []⟩ "Timeout 60000ms exceeded") "SomeButton" =
      false := by
  refine ⟨by decide, rfl, by decide⟩

/-- **C4 amended** — a hard-stage failure aborts the Run with a fatal
error, but only the trigger-action ("Reveal Stalkers") and
identifier-entry (username input) messages enumerate the interactive
elements present on the page at failure time; the confirm-action message
wraps the driver error without any enumeration (the button dump goes only
to the log), and the results-wait timeout message is a fixed string with
no enumeration. -/
theorem C4_amended_enumeration_only_for_trigger_and_identifier :
    ∀ (p : PageElems) (driverErr : String),
      (∀ e ∈ relevantElems HardStage.triggerAction p,
        containsStr (hardStageErrorMsg HardStage.triggerAction p driverErr)
          e = true) ∧
      (∀ e ∈ relevantElems HardStage.identifierEntry p,
        containsStr
          (hardStageErrorMsg HardStage.identifierEntry p driverErr)
          e = true) ∧
      hardStageErrorMsg HardStage.resultsWaitStage p driverErr =
        "Cards did not appear within timeout period" ∧
      hardStageErrorMsg HardStage.confirmAction p driverErr =
        "Could not find profile confirmation button: " ++ driverErr := by
  intro p driverErr
  refine ⟨?_, ?_, rfl, rfl⟩
  · intro e he
    show containsL ("Could not find \"Reveal Stalkers\" button. Available buttons: "
        ++ joinSep ", " p.buttons).data e.data = true
    simp only [String.data_append]
    exact containsL_append_left _ _ _ (containsL_mem_join ", " p.buttons e he)
  · intro e he
    show containsL ("Could not find username input. Available inputs: ["
        ++ joinSep "," p.inputs ++ "]").data e.data = true
    simp only [String.data_append]
    rw [List.append_assoc]
    refine containsL_append_left _ _ _ ?_
    exact containsL_append_right _ _ _ (containsL_mem_join "," p.inputs e he)

/-- Witness for the amended C4: a concrete page with one button and one
input; both enumerating messages contain the respective element. -/
theorem C4_amended_witness :
    containsStr (hardStageErrorMsg HardStage.triggerAction
      ⟨["Reveal Stalkers Now"], ["input-a"]⟩ "err") "Reveal Stalkers Now" =
      true ∧
    containsStr (hardStageErrorMsg HardStage.identifierEntry
      ⟨["Reveal Stalkers Now"], ["input-a"]⟩ "err") "input-a" = true :=
  ⟨(C4_amended_enumeration_only_for_trigger_and_identifier
      ⟨["Reveal Stalkers Now"], ["input-a"]⟩ "err").1 "Reveal Stalkers Now"
      (by decide),
   (C4_amended_enumeration_only_for_trigger_and_identifier
      ⟨["Reveal Stalkers Now"], ["input-a"]⟩ "err").2.1 "input-a"
      (by decide)⟩

/-! ## Profile-confirmation extractor
(`backend/scraper/parseSnapshots.js`, `parseProfileSnapshot`)

The parsed DOM is modelled as the text/attribute projections the function
queries (each list in document order, as `querySelectorAll` yields them);
the jsdom text computation itself is outside the embedding.  JS regexes are
embedded as explicit scanners with the same matching semantics.
`jsTrim`/`jsStartsWith` are `String.prototype.trim`/`startsWith` over the
character lists (ASCII whitespace). -/

/-- `String.prototype.trim()`. -/
def jsTrim (s : String) : String :=
  String.mk
    (((s.data.dropWhile Char.isWhitespace).reverse.dropWhile
      Char.isWhitespace).reverse)

/-- `String.prototype.startsWith(pat)`. -/
def jsStartsWith (s pat : String) : Bool := startsWithL s.data pat.data

/-- Projections of the parsed snapshot document. -/
structure ProfileDoc where
  /-- `style` attribute of every `[style]` element. -/
  styles : List String
  /-- `textContent` of every `span, div, p` element. -/
  candTexts : List String
  /-- `textContent` of every `h1, h2` element. -/
  headings : List String
  /-- `textContent` of every `p, span` element. -/
  pspanTexts : List String
  /-- `textContent` of every `button` element. -/
  buttonTexts : List String
  /-- `src` of every `img[src]` element. -/
  imgSrcs : List String
deriving DecidableEq, Repr

/-- Lower-case a character list (JS case-insensitive matching, ASCII). -/
def lowerL (l : List Char) : List Char := l.map Char.toLower

/-- Case-insensitive substring test (`/pat/i.test(s)`). -/
def containsCI (s pat : String) : Bool :=
  containsL (lowerL s.data) (lowerL pat.data)

/-- JS `\w`: ASCII letter, digit or underscore. -/
def isWordChar (c : Char) : Bool :=
  (c.isAlpha || c.isDigit) || decide (c = '_')

/-- `/^(@[\w_]+)/i`: the leading `@` followed by at least one word
character; yields the matched group. -/
def matchHandle (s : String) : Option String :=
  match s.data with
  | '@' :: rest =>
      let w := rest.takeWhile isWordChar
      if w.isEmpty then none else some (String.mk ('@' :: w))
  | _ => none

/-- The stop words of
`/(Hello|Is|Continue|the|profile|correct|No|want|correct|it)/i`, in source
order. -/
def uiStopWords : List String :=
  ["Hello", "Is", "Continue", "the", "profile", "correct", "No", "want",
   "correct", "it"]

/-- Does `w` end `s`, case-insensitively? -/
def endsWithCI (s w : String) : Bool :=
  decide (w.data.length ≤ s.data.length) &&
    decide (lowerL (s.data.drop (s.data.length - w.data.length)) =
      lowerL w.data)

/-- `.replace(/(Hello|Is|…)$/i, '')`: the engine takes the leftmost match
ending at the end of the string, i.e. removes the longest suffix equal
(case-insensitively) to a stop word; no match leaves the string as is. -/
def removeStopSuffix (s : String) : String :=
  let hits := uiStopWords.filter (fun w => endsWithCI s w)
  match hits.foldl (fun acc w =>
      match acc with
      | none => some w
      | some m => if m.data.length < w.data.length then some w else acc)
      none with
  | none => s
  | some w => String.mk (s.data.take (s.data.length - w.data.length))

/-- `.split(/(Hello|Is|…)/i)[0]`: the prefix before the leftmost
occurrence of any stop word (case-insensitively); the whole string when no
stop word occurs. -/
def takeToStopWord : List Char → List Char
  | [] => []
  | c :: rest =>
      if uiStopWords.any (fun w =>
          startsWithL (lowerL (c :: rest)) (lowerL w.data)) then []
      else c :: takeToStopWord rest

/-- The username clean-up block of `parseProfileSnapshot`, on the trimmed
text of the chosen node. -/
def cleanUsername (rawText : String) : String :=
  match matchHandle rawText with
  | some m =>
      let cleaned := removeStopSuffix m
      if jsStartsWith cleaned "@" then cleaned else m
  | none =>
      if jsStartsWith rawText "@" then
        String.mk (takeToStopWord rawText.data)
      else ""

/-- Stable insertion preserving document order among equal lengths
(V8's `Array.prototype.sort` is stable). -/
def insertByLen (x : String) : List String → List String
  | [] => [x]
  | y :: ys =>
      if (jsTrim y).length < (jsTrim x).length then y :: insertByLen x ys
      else x :: y :: ys

/-- `.sort((a, b) => a.trim().length - b.trim().length)`, stable. -/
def sortByTrimLen (l : List String) : List String := l.foldr insertByLen []

/-- `/width:\s*\d+%/i` at one position (the progress-node search). -/
def widthIntAt (l : List Char) : Bool :=
  if startsWithL (lowerL l) (lowerL "width:".data) then
    let after := (l.drop 6).dropWhile Char.isWhitespace
    let run := after.takeWhile Char.isDigit
    decide (run ≠ []) && decide ((after.drop run.length).head? = some '%')
  else false

/-- Scan every position for the test above (`.test`). -/
def widthIntTest : List Char → Bool
  | [] => false
  | c :: rest => widthIntAt (c :: rest) || widthIntTest rest

/-- `style.match(/width:\s*([\d.]+)%/i)`, group 1 at one position. -/
def widthValueAt (l : List Char) : Option (List Char) :=
  if startsWithL (lowerL l) (lowerL "width:".data) then
    let after := (l.drop 6).dropWhile Char.isWhitespace
    let run := after.takeWhile (fun c => c.isDigit || decide (c = '.'))
    if run ≠ [] ∧ (after.drop run.length).head? = some '%' then some run
    else none
  else none

/-- Leftmost-position scan for the match above. -/
def widthValueScan : List Char → Option (List Char)
  | [] => none
  | c :: rest =>
      match widthValueAt (c :: rest) with
      | some v => some v
      | none => widthValueScan rest

/-- `Number(s)` for a string of digits and dots: `none` models `NaN`
(no digit at all, or more than one dot). -/
def jsNumber (s : String) : Option ℚ :=
  if ¬ s.data.any Char.isDigit then none
  else
    match (s.data.filter (fun c => decide (c = '.'))).length with
    | 0 => some ((s.data.foldl (fun n c => n * 10 + (c.toNat - 48)) 0 : ℕ) : ℚ)
    | 1 =>
        let intPart := s.data.takeWhile (fun c => decide (c ≠ '.'))
        let fracPart := (s.data.drop (intPart.length + 1))
        some (((intPart.foldl (fun n c => n * 10 + (c.toNat - 48)) 0 : ℕ) : ℚ) +
          ((fracPart.foldl (fun n c => n * 10 + (c.toNat - 48)) 0 : ℕ) : ℚ) /
            ((10 : ℚ) ^ fracPart.length))
    | _ + 2 => none

/-- `extractAvatar`, step 1: the first `[style]` element whose style
mentions `background-image` (case-insensitively). -/
def bgStyleNode (d : ProfileDoc) : Option String :=
  d.styles.find? (fun s => containsCI s "background-image")

/-- `style.match(/url\((['"]?)(.+?)\1\)/i)`, group 2 at one position:
after `url(` (case-insensitive) the engine first tries to capture a quote;
the lazy body then runs to the first closing quote-then-parenthesis (body
non-empty, no newline); if that fails the quote capture backtracks to
empty and the body runs to the first `)`. -/
def urlValueAt (l : List Char) : Option (List Char) :=
  if startsWithL (lowerL l) (lowerL "url(".data) then
    let after := l.drop 4
    let unquoted : Option (List Char) :=
      let body := after.takeWhile (fun c => decide (c ≠ ')'))
      if body ≠ [] ∧ ¬ body.any (fun c => decide (c = '\n')) ∧
          (after.drop body.length).head? = some ')' then some body
      else none
    match after with
    | q :: rest =>
        if q = '\'' ∨ q = '"' then
          match (List.range rest.length).find? (fun i =>
              decide (1 ≤ i) && decide ((rest.drop i).head? = some q) &&
              decide ((rest.drop (i + 1)).head? = some ')') &&
              decide (¬ (rest.take i).any (fun c => c = '\n'))) with
          | some i => some (rest.take i)
          | none => unquoted
        else unquoted
    | [] => none
  else none

/-- Leftmost-position scan for the `url(...)` match. -/
def urlValueScan : List Char → Option (List Char)
  | [] => none
  | c :: rest =>
      match urlValueAt (c :: rest) with
      | some v => some v
      | none => urlValueScan rest

/-- `extractAvatar(doc)`: background-image style first (trimmed `url()`
content), `img[src]` second, `null` otherwise. -/
def extractAvatar (d : ProfileDoc) : Option String :=
  let fromStyle : Option String :=
    match bgStyleNode d with
    | some s =>
        match urlValueScan s.data with
        | some v => some (jsTrim (String.mk v))
        | none => none
    | none => none
  match fromStyle with
  | some v => some v
  | none => d.imgSrcs.head?

/-- The record `parseProfileSnapshot` resolves with.  `progressPercent`
is a JS number; `none` stands for `NaN`. -/
structure ProfileRecord where
  avatar : Option String
  progressPercent : Option ℚ
  username : String
  greeting : String
  question : String
  primaryCta : String
  secondaryCta : String
deriving DecidableEq, Repr

/-- `parseProfileSnapshot` on a parsed document (the `try` body; a markup
the DOM parser rejects yields `null` upstream and is outside this model).
Every field falls back to the documented literal default. -/
def parseProfileSnapshot (d : ProfileDoc) : ProfileRecord :=
  let avatar := extractAvatar d
  let sorted := sortByTrimLen
    (d.candTexts.filter (fun t => jsStartsWith (jsTrim t) "@"))
  let username := match sorted.head? with
    | none => ""
    | some t => cleanUsername (jsTrim t)
  let progress : Option ℚ :=
    match d.styles.find? (fun s => widthIntTest s.data) with
    | none => some 55
    | some s =>
        match widthValueScan s.data with
        | none => some 55
        | some run => jsNumber (String.mk run)
  let greeting := jsTrim (match d.headings.head? with
    | none => "Hello"
    | some t => if t = "" then "Hello" else t)
  let question := match d.pspanTexts.find?
      (fun t => containsCI (jsTrim t) "profile") with
    | none => "Is this your profile?"
    | some t => jsTrim t
  let primaryCta := jsTrim (match d.buttonTexts.get? 0 with
    | none => "Continue, the profile is correct"
    | some t => if t = "" then "Continue, the profile is correct" else t)
  let secondaryCta := jsTrim (match d.buttonTexts.get? 1 with
    | none => "No, I want to correct it"
    | some t => if t = "" then "No, I want to correct it" else t)
  { avatar := avatar
    progressPercent := progress
    username := username
    greeting := greeting
    question := question
    primaryCta := primaryCta
    secondaryCta := secondaryCta }

lemma mem_insertByLen (x y : String) (l : List String) :
    y ∈ insertByLen x l ↔ y = x ∨ y ∈ l := by
  induction l with
  | nil => simp [insertByLen]
  | cons z zs ih =>
      by_cases h : (jsTrim z).length < (jsTrim x).length
      · rw [insertByLen, if_pos h]
        rw [List.mem_cons, ih, List.mem_cons]
        tauto
      · rw [insertByLen, if_neg h]
        simp

lemma insertByLen_ne_nil (x : String) (l : List String) :
    insertByLen x l ≠ [] := by
  cases l with
  | nil => simp [insertByLen]
  | cons z zs =>
      by_cases h : (jsTrim z).length < (jsTrim x).length <;>
        simp [insertByLen, h]

lemma sortByTrimLen_eq_nil_iff (l : List String) :
    sortByTrimLen l = [] ↔ l = [] := by
  cases l with
  | nil => simp [sortByTrimLen]
  | cons x xs =>
      simp only [sortByTrimLen, List.foldr_cons]
      exact ⟨fun h => absurd h (insertByLen_ne_nil x _), fun h => by cases h⟩

lemma mem_sortByTrimLen (y : String) (l : List String) :
    y ∈ sortByTrimLen l ↔ y ∈ l := by
  induction l with
  | nil => simp [sortByTrimLen]
  | cons x xs ih =>
      simp only [sortByTrimLen, List.foldr_cons] at *
      rw [mem_insertByLen, ih, List.mem_cons]

lemma sortByTrimLen_head_min (l : List String) (y : String)
    (h : (sortByTrimLen l).head? = some y) :
    ∀ u ∈ l, (jsTrim y).length ≤ (jsTrim u).length := by
  induction l generalizing y with
  | nil => cases h
  | cons x xs ih =>
      simp only [sortByTrimLen, List.foldr_cons] at h
      have hxs : List.foldr insertByLen [] xs = sortByTrimLen xs := rfl
      rw [hxs] at h
      intro u hu
      cases hs : sortByTrimLen xs with
      | nil =>
          rw [hs] at h
          simp only [insertByLen, List.head?_cons] at h
          injection h with h
          subst h
          rcases List.mem_cons.mp hu with rfl | hmem
          · exact Nat.le_refl _
          · exact absurd ((sortByTrimLen_eq_nil_iff xs).mp hs ▸ hmem)
              (List.not_mem_nil u)
      | cons z zs =>
          rw [hs] at h
          by_cases hlt : (jsTrim z).length < (jsTrim x).length
          · rw [insertByLen, if_pos hlt, List.head?_cons] at h
            injection h with h
            subst h
            rcases List.mem_cons.mp hu with rfl | hmem
            · exact Nat.le_of_lt hlt
            · exact ih z (by rw [hs]; rfl) u hmem
          · rw [insertByLen, if_neg hlt, List.head?_cons] at h
            injection h with h
            subst h
            rcases List.mem_cons.mp hu with rfl | hmem
            · exact Nat.le_refl _
            · exact Nat.le_trans (Nat.le_of_not_lt hlt)
                (ih z (by rw [hs]; rfl) u hmem)

lemma sortByTrimLen_head_unique_min (l : List String) (t : String)
    (ht : t ∈ l)
    (hmin : ∀ u ∈ l, u ≠ t → (jsTrim t).length < (jsTrim u).length) :
    (sortByTrimLen l).head? = some t := by
  cases hh : (sortByTrimLen l).head? with
  | none =>
      rw [List.head?_eq_none_iff, sortByTrimLen_eq_nil_iff] at hh
      exact absurd (hh ▸ ht) (List.not_mem_nil t)
  | some y =>
      by_cases hyt : y = t
      · rw [hyt]
      · have hy : y ∈ l := by
          rw [← mem_sortByTrimLen]
          exact List.mem_of_mem_head? hh
        have h1 := hmin y hy hyt
        have h2 := sortByTrimLen_head_min l y hh t ht
        omega

/-- **C7** — Display-handle extraction collects the `span, div, p` texts
whose trimmed text starts with `@`, stably sorts them by ascending trimmed
length, takes the shortest, and cleans it by extracting the leading
`@`-and-word-characters group and trimming one trailing stop-list word:
when one candidate is strictly shortest, the extracted username is its
cleaned trim (i); in particular `"@john_doeHello"` (with `"Hello"` in the
stop list) cleans to `"@john_doe"` (ii–iv). -/
theorem C7_handle_shortest_then_trim_stoplist :
    (∀ (d : ProfileDoc) (t : String),
      t ∈ d.candTexts → jsStartsWith (jsTrim t) "@" = true →
      (∀ u ∈ d.candTexts, jsStartsWith (jsTrim u) "@" = true → u ≠ t →
        (jsTrim t).length < (jsTrim u).length) →
      (parseProfileSnapshot d).username = cleanUsername (jsTrim t)) ∧
    cleanUsername "@john_doeHello" = "@john_doe" ∧
    removeStopSuffix "@john_doeHello" = "@john_doe" ∧
    "Hello" ∈ uiStopWords := by
  refine ⟨?_, by decide, by decide, by decide⟩
  intro d t ht hat hmin
  have hmem : t ∈ d.candTexts.filter (fun u => jsStartsWith (jsTrim u) "@") :=
    List.mem_filter.mpr ⟨ht, hat⟩
  have hhead := sortByTrimLen_head_unique_min
    (d.candTexts.filter (fun u => jsStartsWith (jsTrim u) "@")) t hmem
    (fun u hu => hmin u (List.mem_filter.mp hu).1 (List.mem_filter.mp hu).2)
  simp [parseProfileSnapshot, hhead]

/-- Witness for C7: in a document whose `@`-candidates are
`"@john_doeHello"` (shortest) and `"@a_much_longer_handle_text"`, the
extracted username is `"@john_doe"`. -/
theorem C7_handle_shortest_then_trim_stoplist_witness :
    (parseProfileSnapshot ⟨[], ["Hello John",
      "@john_doeHello", "@a_much_longer_handle_text"], [], [], [],
      []⟩).username = "@john_doe" := by
  rw [C7_handle_shortest_then_trim_stoplist.1
    ⟨[], ["Hello John", "@john_doeHello", "@a_much_longer_handle_text"],
      [], [], [], []⟩ "@john_doeHello" (by decide) (by decide) (by decide)]
  exact C7_handle_shortest_then_trim_stoplist.2.1

/-- **C10** — `parseProfileSnapshot` is total on parsed documents and every
field takes its literal default when extraction finds nothing:
`progressPercent = 55` with no width-percent style, `username = ""` (a
string, never null) with no `@`-candidate, `greeting = "Hello"` with no
heading, `question = "Is this your profile?"` with no profile text, and
the two CTA defaults with no buttons. -/
theorem C10_extraction_defaults :
    ∀ d : ProfileDoc,
      ((∀ s ∈ d.styles, widthIntTest s.data = false) →
        (parseProfileSnapshot d).progressPercent = some 55) ∧
      ((∀ t ∈ d.candTexts, jsStartsWith (jsTrim t) "@" = false) →
        (parseProfileSnapshot d).username = "") ∧
      (d.headings = [] → (parseProfileSnapshot d).greeting = "Hello") ∧
      ((∀ t ∈ d.pspanTexts, containsCI (jsTrim t) "profile" = false) →
        (parseProfileSnapshot d).question = "Is this your profile?") ∧
      (d.buttonTexts = [] →
        (parseProfileSnapshot d).primaryCta =
          "Continue, the profile is correct" ∧
        (parseProfileSnapshot d).secondaryCta =
          "No, I want to correct it") := by
  intro d
  refine ⟨?_, ?_, ?_, ?_, ?_⟩
  · intro h
    have hf : d.styles.find? (fun s => widthIntTest s.data) = none :=
      List.find?_eq_none.mpr (fun x hx => by simp [h x hx])
    simp [parseProfileSnapshot, hf]
  · intro h
    have hf : d.candTexts.filter (fun t => jsStartsWith (jsTrim t) "@") =
        [] := List.filter_eq_nil_iff.mpr (fun x hx => by simp [h x hx])
    simp [parseProfileSnapshot, hf, sortByTrimLen]
  · intro h
    simp [parseProfileSnapshot, h, jsTrim]
  · intro h
    have hf : d.pspanTexts.find?
        (fun t => containsCI (jsTrim t) "profile") = none :=
      List.find?_eq_none.mpr (fun x hx => by simp [h x hx])
    simp [parseProfileSnapshot, hf]
  · intro h
    refine ⟨?_, ?_⟩ <;> simp [parseProfileSnapshot, h] <;> decide

/-- Witness for C10: the empty document yields every default. -/
theorem C10_extraction_defaults_witness :
    (parseProfileSnapshot ⟨[], [], [], [], [], []⟩).progressPercent =
      some 55 ∧
    (parseProfileSnapshot ⟨[], [], [], [], [], []⟩).username = "" ∧
    (parseProfileSnapshot ⟨[], [], [], [], [], []⟩).greeting = "Hello" ∧
    (parseProfileSnapshot ⟨[], [], [], [], [], []⟩).question =
      "Is this your profile?" ∧
    (parseProfileSnapshot ⟨[], [], [], [], [], []⟩).primaryCta =
      "Continue, the profile is correct" ∧
    (parseProfileSnapshot ⟨[], [], [], [], [], []⟩).secondaryCta =
      "No, I want to correct it" :=
  ⟨(C10_extraction_defaults ⟨[], [], [], [], [], []⟩).1
      (fun s hs => absurd hs (List.not_mem_nil s)),
   (C10_extraction_defaults ⟨[], [], [], [], [], []⟩).2.1
      (fun t ht => absurd ht (List.not_mem_nil t)),
   (C10_extraction_defaults ⟨[], [], [], [], [], []⟩).2.2.1 rfl,
   (C10_extraction_defaults ⟨[], [], [], [], [], []⟩).2.2.2.1
      (fun t ht => absurd ht (List.not_mem_nil t)),
   ((C10_extraction_defaults ⟨[], [], [], [], [], []⟩).2.2.2.2 rfl).1,
   ((C10_extraction_defaults ⟨[], [], [], [], [], []⟩).2.2.2.2 rfl).2⟩

/-! ## Processing-snapshot bullet extraction
(`parseSnapshots.js`, `parseProcessingSnapshot`)

A list item is modelled by the two strings the code computes from it: the
direct text (its own text nodes, trimmed and space-joined, then trimmed)
and the full nested `textContent`, trimmed.  Paragraphs are modelled by
their trimmed `textContent`.  Lengths are code-unit counts (all-ASCII here,
so code points coincide). -/

/-- One `li` element as the code sees it. -/
structure ListItem where
  direct : String
  nested : String
deriving DecidableEq, Repr

/-- The plain-word alternatives of the keyword regex
`/mentions|detected|…|followers|found.*\d+/i`. -/
def bulletKeywords : List String :=
  ["mentions", "detected", "visited", "people", "screenshot", "region",
   "profile", "times", "yesterday", "shared", "stories", "messages",
   "followers"]

/-- The `found.*\d+` alternative: `found` (case-insensitively) followed by
a digit with no line break in between (`.` matches neither `\n` nor
`\r`). -/
def foundNumberTest : List Char → Bool
  | [] => false
  | c :: rest =>
      (startsWithL (lowerL (c :: rest)) (lowerL "found".data) &&
        (((c :: rest).drop 5).takeWhile
          (fun x => !(decide (x = '\n') || decide (x = '\r')))).any
          Char.isDigit)
      || foundNumberTest rest

/-- `.test(text)` of the keyword regex. -/
def bulletKeywordTest (s : String) : Bool :=
  bulletKeywords.any (fun w => containsCI s w) || foundNumberTest s.data

/-- The per-list-item branch: requires non-empty direct text longer than
20 characters; the bullet text is the nested text when it is under 200
characters, the direct text otherwise; kept when non-empty and
keyword-matching. -/
def liBullet (li : ListItem) : Option String :=
  if li.direct ≠ "" ∧ 20 < li.direct.length then
    let text := if li.nested.length < 200 then li.nested else li.direct
    if text ≠ "" ∧ bulletKeywordTest text then some text else none
  else none

/-- The paragraph fallback branch: 20–200 exclusive and
keyword-matching. -/
def pBullet (p : String) : Option String :=
  if 20 < p.length ∧ p.length < 200 ∧ bulletKeywordTest p then some p
  else none

/-- `arr.filter((text, i, arr) => arr.indexOf(text) === i)`: keep the first
occurrence of each text, preserving order. -/
def dedupFirstAux (seen : List String) : List String → List String
  | [] => []
  | x :: xs =>
      if x ∈ seen then dedupFirstAux seen xs
      else x :: dedupFirstAux (x :: seen) xs

/-- Deduplication by exact text, first-seen order. -/
def dedupFirst (l : List String) : List String := dedupFirstAux [] l

/-- The bullet pipeline of `parseProcessingSnapshot`: list items first;
paragraphs only when no list item qualified; then dedup and the final
under-200 filter. -/
def extractProcessingBullets (lis : List ListItem) (paras : List String) :
    List String :=
  let bullets := lis.filterMap liBullet
  let bullets := if bullets.isEmpty then paras.filterMap pBullet
    else bullets
  (dedupFirst bullets).filter (fun t => t.length < 200)

/-- Modelled from the spec (claim C8), NOT from the source, for
comparison: "list-item elements whose text (direct text content, falling
back to the full nested text when the direct text is empty) passes the
20–200 character length filter and matches the keyword allowlist", with
the same paragraph fallback and dedup. -/
def bulletsSpecDescribed (lis : List ListItem) (paras : List String) :
    List String :=
  let textOf := fun (li : ListItem) =>
    if li.direct = "" then li.nested else li.direct
  let liB := fun (li : ListItem) =>
    let t := textOf li
    if 20 < t.length ∧ t.length < 200 ∧ bulletKeywordTest t then some t
    else none
  let bullets := lis.filterMap liB
  let bullets := if bullets.isEmpty then paras.filterMap pBullet
    else bullets
  dedupFirst bullets

lemma dedupFirstAux_nodup (l : List String) :
    ∀ seen, (dedupFirstAux seen l).Nodup ∧
      ∀ x ∈ dedupFirstAux seen l, x ∉ seen := by
  induction l with
  | nil => intro seen; simp [dedupFirstAux]
  | cons x xs ih =>
      intro seen
      by_cases hx : x ∈ seen
      · simp only [dedupFirstAux, if_pos hx]
        exact ih seen
      · simp only [dedupFirstAux, if_neg hx]
        obtain ⟨hnd, hmem⟩ := ih (x :: seen)
        refine ⟨List.nodup_cons.mpr ⟨?_, hnd⟩, ?_⟩
        · intro hxin
          exact hmem x hxin (List.mem_cons_self x seen)
        · intro y hy
          rcases List.mem_cons.mp hy with rfl | hy'
          · exact hx
          · exact fun hseen =>
              hmem y hy' (List.mem_cons_of_mem x hseen)

lemma dedupFirstAux_sublist (l : List String) :
    ∀ seen, List.Sublist (dedupFirstAux seen l) l := by
  induction l with
  | nil => intro seen; simp [dedupFirstAux]
  | cons x xs ih =>
      intro seen
      by_cases hx : x ∈ seen
      · simp only [dedupFirstAux, if_pos hx]
        exact (ih seen).cons x
      · simp only [dedupFirstAux, if_neg hx]
        exact (ih (x :: seen)).cons₂ x

/-- **C8 counterexample** — the claim's fallback "to the full nested text
when the direct text is empty" does not exist in the code: a list item
with empty direct text and a qualifying nested text (46 characters,
keyword `visited`) yields no bullet at all, while the claim's described
procedure yields that text. -/
theorem C8_counterexample_empty_direct_text :
    extractProcessingBullets
      [⟨"", "They visited your profile many times yesterday"⟩] [] = [] ∧
    (20 < ("They visited your profile many times yesterday" : String).length ∧
      ("They visited your profile many times yesterday" : String).length <
        200 ∧
      bulletKeywordTest "They visited your profile many times yesterday" =
        true) ∧
    bulletsSpecDescribed
      [⟨"", "They visited your profile many times yesterday"⟩] [] =
      ["They visited your profile many times yesterday"] ∧
    extractProcessingBullets
        [⟨"", "They visited your profile many times yesterday"⟩] [] ≠
      bulletsSpecDescribed
        [⟨"", "They visited your profile many times yesterday"⟩] [] := by
  refine ⟨by decide, by decide, by decide, by decide⟩

/-- **C8 amended** — Bullet extraction prefers list items whose direct
text is non-empty and longer than 20 characters; the bullet text is the
full nested text when it is under 200 characters, otherwise the direct
text; an item with empty direct text is skipped entirely — there is no
fallback to its nested text (i); paragraphs (20–200 exclusive, keyword
allowlist) are consulted only when no list item qualifies (ii); the
result is deduplicated by exact text match preserving first-seen order
(iii, iv); and for 5 list items of which exactly 2 qualify, one a verbatim
duplicate of the other, extraction returns exactly 1 bullet (v). -/
theorem C8_amended_bullet_extraction :
    (∀ (li : ListItem) (lis : List ListItem) (paras : List String),
       li.direct = "" →
       extractProcessingBullets (li :: lis) paras =
         extractProcessingBullets lis paras) ∧
    (∀ (lis : List ListItem) (paras paras' : List String),
       lis.filterMap liBullet ≠ [] →
       extractProcessingBullets lis paras =
         extractProcessingBullets lis paras') ∧
    (∀ (lis : List ListItem) (paras : List String),
       (extractProcessingBullets lis paras).Nodup) ∧
    (∀ l : List String, List.Sublist (dedupFirst l) l) ∧
    extractProcessingBullets
      [⟨"People visited your profile six times this week",
        "People visited your profile six times this week"⟩,
       ⟨"", "People visited your profile six times this week"⟩,
       ⟨"short text", "short text"⟩,
       ⟨"People visited your profile six times this week",
        "People visited your profile six times this week"⟩,
       ⟨"a sentence that is long enough for the filter",
        "a sentence that is long enough for the filter"⟩] [] =
      ["People visited your profile six times this week"] := by
  refine ⟨?_, ?_, ?_, fun l => dedupFirstAux_sublist l [], by decide⟩
  · intro li lis paras hdirect
    have h : liBullet li = none := by
      simp [liBullet, hdirect]
    simp [extractProcessingBullets, h]
  · intro lis paras paras' h
    simp [extractProcessingBullets, List.isEmpty_iff, h]
  · intro lis paras
    exact ((dedupFirstAux_nodup _ []).1).filter _

/-- Witness for the amended C8: a list item with empty direct text
contributes nothing — the extraction equals that of the list without
it. -/
theorem C8_amended_bullet_extraction_witness :
    extractProcessingBullets
      [⟨"", "They visited your profile many times yesterday"⟩] [] =
      extractProcessingBullets [] [] :=
  C8_amended_bullet_extraction.1
    ⟨"", "They visited your profile many times yesterday"⟩ [] [] rfl

/-! ## Full-report avatar extraction
(`frontend/src/utils/parseFullReport.js`, `parseFullReport`)

The document is modelled by the style attributes the three methods read —
the styles of `div[class*='rounded-full']` elements (method 1), the styles
of `[style*='background-image']` elements (method 2) — and the raw markup
string (method 3).  The JS regexes (all case-sensitive, no `/i` flag) are
embedded as explicit scanners. -/

/-- Projections of the full-report document. -/
structure FullReportDoc where
  /-- `style` of every `div` whose `class` contains `rounded-full`. -/
  roundedFullStyles : List String
  /-- `style` of every element whose `style` contains `background-image`. -/
  bgImageStyles : List String
  /-- The raw markup. -/
  html : String
deriving DecidableEq, Repr

/-- `trim` on character lists. -/
def trimL (l : List Char) : List Char :=
  ((l.dropWhile Char.isWhitespace).reverse.dropWhile
    Char.isWhitespace).reverse

/-- `.replace(pat, rep)` for all occurrences, left to right,
non-overlapping (the `/g` flag); fuel-driven for structural recursion,
with fuel at least the string length. -/
def replaceAllFuel (pat rep : List Char) : Nat → List Char → List Char
  | _, [] => []
  | 0, l => l
  | fuel + 1, c :: rest =>
      if pat ≠ [] ∧ startsWithL (c :: rest) pat then
        rep ++ replaceAllFuel pat rep fuel ((c :: rest).drop pat.length)
      else c :: replaceAllFuel pat rep fuel rest

/-- `.replace(/pat/g, rep)`. -/
def replaceAllL (l pat rep : List Char) : List Char :=
  replaceAllFuel pat rep l.length l

/-- Method 1's inner regex `/background-image:\s*url\([^)]+\)/` at one
position; yields the non-empty `url(...)` body (the chars between the
parentheses, which is the whole match after the code strips the
`background-image:\s*url\(` head and the trailing parenthesis). -/
def bgUrlMatchAt (l : List Char) : Option (List Char) :=
  if startsWithL l "background-image:".data then
    let after := (l.drop 17).dropWhile Char.isWhitespace
    if startsWithL after "url(".data then
      let body := (after.drop 4).takeWhile (fun c => decide (c ≠ ')'))
      if body ≠ [] ∧ ((after.drop 4).drop body.length).head? = some ')'
      then some body else none
    else none
  else none

/-- Leftmost-position scan for the match above. -/
def bgUrlScan : List Char → Option (List Char)
  | [] => none
  | c :: rest =>
      match bgUrlMatchAt (c :: rest) with
      | some v => some v
      | none => bgUrlScan rest

/-- Method 1's clean-up chain on the `url(...)` body: strip one leading
and one trailing quote, decode `&quot;` and `&amp;`, trim. -/
def cleanUrlContent (body : List Char) : List Char :=
  let b1 := match body with
    | c :: rest => if c = '"' ∨ c = '\'' then rest else body
    | [] => body
  let b2 := match b1.reverse with
    | c :: rest => if c = '"' ∨ c = '\'' then rest.reverse else b1
    | [] => b1
  let b3 := replaceAllL b2 "&quot;".data "\"".data
  let b4 := replaceAllL b3 "&amp;".data "&".data
  trimL b4

/-- Method 1 on one `rounded-full` div's style: both markers present, a
regex match, and the cleaned content a `data:image` value with `base64,`
and more than 200 characters. -/
def method1At (style : String) : Option String :=
  if containsL style.data "background-image".data &&
      containsL style.data "data:image".data then
    match bgUrlScan style.data with
    | some body =>
        let u := cleanUrlContent body
        if startsWithL u "data:image".data ∧
            containsL u "base64,".data ∧ 200 < u.length
        then some (String.mk u) else none
    | none => none
  else none

/-- Method 1: first `rounded-full` div that succeeds. -/
def fullReportAvatarM1 (d : FullReportDoc) : Option String :=
  d.roundedFullStyles.findSome? method1At

/-- Backtracking alternatives after an optional one-character class and an
optional literal: the greedy engine first consumes what it can. -/
def optQuoteAlts (l : List Char) : List (List Char) :=
  match l with
  | c :: rest => if c = '"' ∨ c = '\'' then [rest, l] else [l]
  | [] => [l]

/-- Suffix alternatives after the optional `&quot;` of pattern 1. -/
def optQuotEntityAlts (l : List Char) : List (List Char) :=
  if startsWithL l "&quot;".data then [l.drop 6, l] else [l]

/-- Pattern 1 `/url\(["']?(&quot;)?(data:image\/[^"')]+)["')]?/`, group 2
at one position. -/
def m2p1At (l : List Char) : Option (List Char) :=
  if startsWithL l "url(".data then
    (optQuoteAlts (l.drop 4)).findSome? (fun a =>
      (optQuotEntityAlts a).findSome? (fun b =>
        if startsWithL b "data:image/".data then
          let run := (b.drop 11).takeWhile
            (fun c => !(decide (c = '"') || decide (c = '\'') ||
              decide (c = ')')))
          if run ≠ [] then some ("data:image/".data ++ run) else none
        else none))
  else none

/-- Pattern 2 `/background-image:\s*url\(["']?(data:image[^"')]+)["')]?/`,
group 1 at one position. -/
def m2p2At (l : List Char) : Option (List Char) :=
  if startsWithL l "background-image:".data then
    let after := (l.drop 17).dropWhile Char.isWhitespace
    if startsWithL after "url(".data then
      (optQuoteAlts (after.drop 4)).findSome? (fun b =>
        if startsWithL b "data:image".data then
          let run := (b.drop 10).takeWhile
            (fun c => !(decide (c = '"') || decide (c = '\'') ||
              decide (c = ')')))
          if run ≠ [] then some ("data:image".data ++ run) else none
        else none)
    else none
  else none

/-- Pattern 3 `/url\(&quot;(data:image[^&]+)&quot;\)/`, group 1 at one
position. -/
def m2p3At (l : List Char) : Option (List Char) :=
  if startsWithL l "url(&quot;".data then
    let b := l.drop 10
    if startsWithL b "data:image".data then
      let run := (b.drop 10).takeWhile (fun c => decide (c ≠ '&'))
      if run ≠ [] ∧
          startsWithL ((b.drop 10).drop run.length) "&quot;)".data then
        some ("data:image".data ++ run)
      else none
    else none
  else none

/-- Leftmost-position scan for a positional matcher. -/
def scanFor (f : List Char → Option (List Char)) :
    List Char → Option (List Char)
  | [] => none
  | c :: rest =>
      match f (c :: rest) with
      | some v => some v
      | none => scanFor f rest

/-- Method 2's clean-up chain on an extracted group: drop `&quot;`, decode
`&amp;`, strip a `url(` head, a trailing `)`, and one quote at either
end. -/
def cleanB64Url (g : List Char) : List Char :=
  let b1 := replaceAllL g "&quot;".data []
  let b2 := replaceAllL b1 "&amp;".data "&".data
  let b3 := if startsWithL b2 "url(".data then b2.drop 4 else b2
  let b4 := match b3.reverse with
    | ')' :: rest => rest.reverse
    | _ => b3
  let b5 := match b4 with
    | c :: rest => if c = '"' ∨ c = '\'' then rest else b4
    | [] => b4
  match b5.reverse with
  | c :: rest => if c = '"' ∨ c = '\'' then rest.reverse else b5
  | [] => b5

/-- One pattern attempt of method 2: match, clean, check. -/
def m2Try (m : Option (List Char)) : Option String :=
  match m with
  | none => none
  | some g =>
      let u := cleanB64Url g
      if startsWithL u "data:image".data ∧ containsL u "base64,".data ∧
          200 < u.length
      then some (String.mk u) else none

/-- Method 2 on one element's style: requires `data:image` in the style,
then tries the three patterns in order, first success wins. -/
def method2At (style : String) : Option String :=
  if containsL style.data "data:image".data then
    match m2Try (scanFor m2p1At style.data) with
    | some a => some a
    | none =>
        match m2Try (scanFor m2p2At style.data) with
        | some a => some a
        | none => m2Try (scanFor m2p3At style.data)
  else none

/-- Method 2: first `background-image`-styled element that succeeds. -/
def fullReportAvatarM2 (d : FullReportDoc) : Option String :=
  d.bgImageStyles.findSome? method2At

/-- A base64 alphabet character. -/
def isB64Char (c : Char) : Bool :=
  (c.isAlpha || c.isDigit) ||
    (decide (c = '+') || decide (c = '/') || decide (c = '='))

/-- Method 3's regex `/data:image\/[^;]+;base64,[A-Za-z0-9+/=]{200,}/g` at
one position: the whole match. -/
def base64MatchAt (l : List Char) : Option (List Char) :=
  if startsWithL l "data:image/".data then
    let after := l.drop 11
    let sub := after.takeWhile (fun c => decide (c ≠ ';'))
    if sub ≠ [] ∧ startsWithL (after.drop sub.length) ";base64,".data then
      let run := (after.drop (sub.length + 8)).takeWhile isB64Char
      if 200 ≤ run.length then
        some ("data:image/".data ++ sub ++ ";base64,".data ++ run)
      else none
    else none
  else none

/-- The `matchAll` loop of method 3: successive non-overlapping matches,
first one longer than 500 characters wins; fuel-driven (fuel at least the
string length). -/
def m3Fuel : Nat → List Char → Option (List Char)
  | _, [] => none
  | 0, _ :: _ => none
  | fuel + 1, c :: rest =>
      match base64MatchAt (c :: rest) with
      | some m =>
          if 500 < m.length then some m
          else m3Fuel fuel ((c :: rest).drop m.length)
      | none => m3Fuel fuel rest

/-- Method 3: guarded by `html.includes("data:image")`, then the scan. -/
def fullReportAvatarM3 (d : FullReportDoc) : Option String :=
  if containsL d.html.data "data:image".data then
    (m3Fuel d.html.data.length d.html.data).map String.mk
  else none

/-- The avatar part of `parseFullReport`: methods 1, 2, 3 in order, first
success wins; `null` when all three fail (never an error: the function is
total). -/
def parseFullReportAvatar (d : FullReportDoc) : Option String :=
  match fullReportAvatarM1 d with
  | some a => some a
  | none =>
      match fullReportAvatarM2 d with
      | some a => some a
      | none => fullReportAvatarM3 d

/-- A `data:` URL whose base64 payload is 10,000 encoded characters. -/
def bigImgData : String :=
  String.mk ("data:image/png;base64,".data ++ List.replicate 10000 'A')

/-- Markup embedding `bigImgData` in an `img` `src` attribute only — no
`rounded-full` container and no inline `background-image` style. -/
def bigImgDoc : FullReportDoc :=
  { roundedFullStyles := []
    bgImageStyles := []
    html := "<img src=\"" ++ bigImgData ++ "\">" }

lemma takeWhile_append_all (p : Char → Bool) (l₁ l₂ : List Char)
    (h : ∀ c ∈ l₁, p c = true) (h2 : l₂.takeWhile p = []) :
    (l₁ ++ l₂).takeWhile p = l₁ := by
  induction l₁ with
  | nil => simpa using h2
  | cons c l ih =>
      simp only [List.cons_append, List.takeWhile_cons,
        h c (List.mem_cons_self c l)]
      rw [ih (fun x hx => h x (List.mem_cons_of_mem c hx))]
      simp

lemma base64MatchAt_ne_d (c : Char) (l : List Char) (hc : c ≠ 'd') :
    base64MatchAt (c :: l) = none := by
  have h : startsWithL (c :: l) ("data:image/" : String).data = false := by
    show (decide (c = 'd') && startsWithL l ("ata:image/" : String).data) =
      false
    simp [hc]
  simp [base64MatchAt, h]

lemma m3Fuel_succ_match (fuel : Nat) (c : Char) (rest m : List Char)
    (hm : base64MatchAt (c :: rest) = some m) (hlen : 500 < m.length) :
    m3Fuel (fuel + 1) (c :: rest) = some m := by
  simp only [m3Fuel, hm, if_pos hlen]

lemma m3Fuel_prefix_none (s : List Char) :
    ∀ (p : List Char) (fuel : Nat), p.length ≤ fuel →
    (∀ c t, (c :: t) <:+ p → base64MatchAt ((c :: t) ++ s) = none) →
    m3Fuel fuel (p ++ s) = m3Fuel (fuel - p.length) s := by
  intro p
  induction p with
  | nil => intro fuel _ _; simp
  | cons c p' ih =>
      intro fuel hlen h
      cases fuel with
      | zero => simp at hlen
      | succ f =>
          have hm : base64MatchAt (c :: (p' ++ s)) = none := by
            rw [← List.cons_append]
            exact h c p' (List.suffix_refl _)
          have hstep : m3Fuel (f + 1) ((c :: p') ++ s) =
              m3Fuel f (p' ++ s) := by
            rw [List.cons_append]
            simp only [m3Fuel, hm]
          rw [hstep, ih f (by simpa using hlen)
            (fun c' t' hsuf => h c' t' (hsuf.trans (List.suffix_cons c p')))]
          congr 1
          simp only [List.length_cons]
          omega

/-- Method 3's regex evaluated at the start of a well-formed embedded
image: the match is the image up to the end of its base64 run. -/
lemma base64MatchAt_exact (sub run tail : List Char)
    (hsub : sub ≠ []) (hsubc : ∀ c ∈ sub, c ≠ ';')
    (hrun : ∀ c ∈ run, isB64Char c = true) (hrunlen : 200 ≤ run.length)
    (htail : tail.takeWhile isB64Char = []) :
    base64MatchAt (("data:image/" : String).data ++
        (sub ++ ((";base64," : String).data ++ (run ++ tail)))) =
      some (("data:image/" : String).data ++
        (sub ++ ((";base64," : String).data ++ run))) := by
  have hstart : startsWithL (("data:image/" : String).data ++
      (sub ++ ((";base64," : String).data ++ (run ++ tail))))
      ("data:image/" : String).data = true := startsWithL_append_self _ _
  have h11 : ("data:image/" : String).data.length = 11 := by decide
  have h8 : (";base64," : String).data.length = 8 := by decide
  have hsemi : ((";base64," : String).data ++ (run ++ tail)).takeWhile
      (fun c => decide (c ≠ ';')) = [] := by
    show ((';' :: ("base64," : String).data) ++ (run ++ tail)).takeWhile
      (fun c => decide (c ≠ ';')) = []
    simp [List.takeWhile_cons]
  have hsubtake : (sub ++ ((";base64," : String).data ++
      (run ++ tail))).takeWhile (fun c => decide (c ≠ ';')) = sub :=
    takeWhile_append_all _ _ _
      (fun c hc => by simp [hsubc c hc]) hsemi
  simp only [base64MatchAt, hstart, if_true]
  rw [List.drop_left' h11, hsubtake]
  have hd1 : (sub ++ ((";base64," : String).data ++
      (run ++ tail))).drop sub.length = (";base64," : String).data ++
      (run ++ tail) := List.drop_left _ _
  have hd2 : (sub ++ ((";base64," : String).data ++
      (run ++ tail))).drop (sub.length + 8) = run ++ tail := by
    rw [show sub ++ ((";base64," : String).data ++ (run ++ tail)) =
      (sub ++ (";base64," : String).data) ++ (run ++ tail) from by
        simp [List.append_assoc]]
    exact List.drop_left'
      (by simp [List.length_append, h8])
  rw [hd1, hd2, if_pos ⟨hsub, startsWithL_append_self _ _⟩,
    takeWhile_append_all _ _ _ hrun htail, if_pos hrunlen]
  simp only [List.append_assoc]

/-- The raw markup of `bigImgDoc`, decomposed. -/
lemma bigImgDoc_html_decomp : bigImgDoc.html.data =
    ("<img src=\"" : String).data ++
      (("data:image/png;base64," : String).data ++
        (List.replicate 10000 'A' ++ ("\">" : String).data)) := by
  show ((("<img src=\"" : String) ++ bigImgData) ++ "\">").data = _
  rw [String.data_append, String.data_append]
  rw [show bigImgData.data = ("data:image/png;base64," : String).data ++
    List.replicate 10000 'A' from rfl]
  rw [List.append_assoc, List.append_assoc]

set_option maxRecDepth 4000 in
/-- Method 3 finds the 10,000-character image in `bigImgDoc`. -/
lemma fullReportAvatarM3_bigImgDoc :
    fullReportAvatarM3 bigImgDoc = some bigImgData := by
  have hLP : ("<img src=\"" : String).data.length = 10 := by decide
  have hLD : ("data:image/png;base64," : String).data.length = 22 := by
    decide
  have hguard : containsL bigImgDoc.html.data
      ("data:image" : String).data = true := by
    rw [bigImgDoc_html_decomp]
    apply containsL_append_left
    apply containsL_of_startsWithL
    rw [show ("data:image/png;base64," : String).data =
      ("data:image" : String).data ++ ("/png;base64," : String).data
      from by decide, List.append_assoc]
    exact startsWithL_append_self _ _
  have hmatch : base64MatchAt
      (("data:image/png;base64," : String).data ++
        (List.replicate 10000 'A' ++ ("\">" : String).data)) =
      some (("data:image/png;base64," : String).data ++
        List.replicate 10000 'A') := by
    have hres := base64MatchAt_exact ("png" : String).data
      (List.replicate 10000 'A') ("\">" : String).data
      (by decide) (by decide)
      (fun c hc => by rw [List.eq_of_mem_replicate hc]; decide)
      (by rw [List.length_replicate]; omega)
      (by decide)
    rw [show ("data:image/png;base64," : String).data =
      ("data:image/" : String).data ++ (("png" : String).data ++
        (";base64," : String).data) from by decide]
    rw [List.append_assoc, List.append_assoc, hres]
    simp only [List.append_assoc]
  have hall : ∀ x ∈ ("<img src=\"" : String).data, x ≠ 'd' := by decide
  have hskip : ∀ c t, (c :: t) <:+ ("<img src=\"" : String).data →
      base64MatchAt ((c :: t) ++
        (("data:image/png;base64," : String).data ++
          (List.replicate 10000 'A' ++ ("\">" : String).data))) =
        none := by
    intro c t hsuf
    rw [List.cons_append]
    exact base64MatchAt_ne_d c _
      (hall c (hsuf.subset (List.mem_cons_self c t)))
  have hLT : ("\">" : String).data.length = 2 := by decide
  have hlen : bigImgDoc.html.data.length = 10034 := by
    rw [bigImgDoc_html_decomp, List.length_append, List.length_append,
      List.length_append, List.length_replicate, hLP, hLD, hLT]
  have hrunlen : (("data:image/png;base64," : String).data ++
      List.replicate 10000 'A').length = 10022 := by
    rw [List.length_append, List.length_replicate, hLD]
  have hcons : ("data:image/png;base64," : String).data ++
      (List.replicate 10000 'A' ++ ("\">" : String).data) =
      'd' :: (("ata:image/png;base64," : String).data ++
        (List.replicate 10000 'A' ++ ("\">" : String).data)) := rfl
  rw [fullReportAvatarM3, hguard, if_pos rfl, hlen, bigImgDoc_html_decomp]
  rw [m3Fuel_prefix_none _ _ 10034 (by rw [hLP]; omega) hskip, hLP]
  rw [show (10034 - 10 : Nat) = 10023 + 1 from rfl]
  rw [hcons]
  have hmatch2 : base64MatchAt ('d' ::
      (("ata:image/png;base64," : String).data ++
        (List.replicate 10000 'A' ++ ("\">" : String).data))) =
      some (("data:image/png;base64," : String).data ++
        List.replicate 10000 'A') := hmatch
  rw [m3Fuel_succ_match 10023 _ _ _ hmatch2 (by rw [hrunlen]; omega)]
  rfl

/-- **C6** — The full-report avatar extraction tries exactly three methods
in order with the first success winning (i–iii); markup with no embedded
image data anywhere yields `none` without raising (the extraction is a
total function) (iv); and on the markup embedding one image whose base64
payload is 10,000 characters in an `img` `src` only — no `rounded-full`
container, no inline `background-image` style — methods 1 and 2 fail and
method 3 returns precisely that image (v). -/
theorem C6_avatar_three_methods_first_wins :
    (∀ (d : FullReportDoc) (a : String), fullReportAvatarM1 d = some a →
      parseFullReportAvatar d = some a) ∧
    (∀ (d : FullReportDoc) (a : String), fullReportAvatarM1 d = none →
      fullReportAvatarM2 d = some a → parseFullReportAvatar d = some a) ∧
    (∀ d : FullReportDoc, fullReportAvatarM1 d = none →
      fullReportAvatarM2 d = none →
      parseFullReportAvatar d = fullReportAvatarM3 d) ∧
    (∀ d : FullReportDoc,
      (∀ s ∈ d.roundedFullStyles,
        containsL s.data ("data:image" : String).data = false) →
      (∀ s ∈ d.bgImageStyles,
        containsL s.data ("data:image" : String).data = false) →
      containsL d.html.data ("data:image" : String).data = false →
      parseFullReportAvatar d = none) ∧
    (fullReportAvatarM1 bigImgDoc = none ∧
     fullReportAvatarM2 bigImgDoc = none ∧
     parseFullReportAvatar bigImgDoc = some bigImgData) := by
  refine ⟨?_, ?_, ?_, ?_, rfl, rfl, ?_⟩
  · intro d a h
    simp [parseFullReportAvatar, h]
  · intro d a h1 h2
    simp [parseFullReportAvatar, h1, h2]
  · intro d h1 h2
    simp [parseFullReportAvatar, h1, h2]
  · intro d hrf hstyles hhtml
    have h1 : fullReportAvatarM1 d = none := by
      rw [fullReportAvatarM1, List.findSome?_eq_none_iff]
      intro s hs
      simp [method1At, hrf s hs]
    have h2 : fullReportAvatarM2 d = none := by
      rw [fullReportAvatarM2, List.findSome?_eq_none_iff]
      intro s hs
      simp [method2At, hstyles s hs]
    have h3 : fullReportAvatarM3 d = none := by
      simp [fullReportAvatarM3, hhtml]
    simp [parseFullReportAvatar, h1, h2, h3]
  · show parseFullReportAvatar bigImgDoc = some bigImgData
    rw [parseFullReportAvatar,
      show fullReportAvatarM1 bigImgDoc = none from rfl,
      show fullReportAvatarM2 bigImgDoc = none from rfl,
      fullReportAvatarM3_bigImgDoc]

/-- Witness for C6: a document with no embedded image data anywhere yields
`none` from the whole extraction. -/
theorem C6_avatar_three_methods_first_wins_witness :
    parseFullReportAvatar ⟨[], [], "<p>hello</p>"⟩ = none :=
  C6_avatar_three_methods_first_wins.2.2.2.1 ⟨[], [], "<p>hello</p>"⟩
    (fun s hs => absurd hs (List.not_mem_nil s))
    (fun s hs => absurd hs (List.not_mem_nil s)) (by decide)
